import Mathlib

/-!
Verification of the fantasy-football ETL pipeline
(`api_lambda.py`, `sportsdata_scraper.py`).

We shallowly embed the scoring engine, the record normalizer, the
persistence (upsert) step and the lambda entry point, and prove the
specification's claims about them.  Python floats are modelled by exact
rationals (the divisors 25 and 10 make every intermediate value a
decimal rational), Python dicts of optional numeric fields by structures
of `Option ℚ` fields, and the database by explicit lists of rows.
-/

namespace FFN

/-- `round(x, 1)` support: floor of a rational as an integer
(Python's `//`-style flooring). -/
def ratFloor (q : ℚ) : ℤ := q.num.fdiv (q.den : ℤ)

/-- Round a rational to the nearest integer, ties to even
(Python 3 `round` semantics on exact values). -/
def roundHalfEven (q : ℚ) : ℤ :=
  let f := ratFloor q
  let r := q - (f : ℚ)
  if r < 1/2 then f
  else if 1/2 < r then f + 1
  else if f % 2 = 0 then f else f + 1

/-- Python `round(x, 1)`: round to one decimal place, ties to even. -/
def pyRound1 (q : ℚ) : ℚ := (roundHalfEven (q * 10) : ℚ) / 10

/-- A raw provider record: a partial map from stat-field names to
numbers.  A `none` field is an absent key; `dict.get(k, 0)` is
`Option.getD · 0`. -/
structure Stat where
  Name : Option String := none
  Team : Option String := none
  Position : Option String := none
  PassingYards : Option ℚ := none
  PassingTouchdowns : Option ℚ := none
  Interceptions : Option ℚ := none
  RushingYards : Option ℚ := none
  RushingTouchdowns : Option ℚ := none
  ReceivingYards : Option ℚ := none
  ReceivingTouchdowns : Option ℚ := none
  Receptions : Option ℚ := none
  Fumbles : Option ℚ := none
  Week : Option Int := none
  deriving Repr, DecidableEq

namespace ApiLambda

/-- `calculate_fantasy_points` from `api_lambda.py` (lines 164–185),
transcribed statement by statement. -/
def calculate_fantasy_points (stat : Stat) : ℚ :=
  let points : ℚ := 0
  let points := points + (stat.PassingYards.getD 0 / 25) * 1
  let points := points + stat.PassingTouchdowns.getD 0 * 4
  let points := points - stat.Interceptions.getD 0 * 2
  let points := points + (stat.RushingYards.getD 0 / 10) * 1
  let points := points + stat.RushingTouchdowns.getD 0 * 6
  let points := points + (stat.ReceivingYards.getD 0 / 10) * 1
  let points := points + stat.ReceivingTouchdowns.getD 0 * 6
  let points := points + stat.Receptions.getD 0 * 1
  let points := points - stat.Fumbles.getD 0 * 2
  pyRound1 points

end ApiLambda

namespace SportsDataScraper

/-- `SportsDataScraper.calculate_fantasy_points` from
`sportsdata_scraper.py` (lines 80–101), transcribed statement by
statement. -/
def calculate_fantasy_points (stat : Stat) : ℚ :=
  let points : ℚ := 0
  let points := points + (stat.PassingYards.getD 0 / 25) * 1
  let points := points + stat.PassingTouchdowns.getD 0 * 4
  let points := points - stat.Interceptions.getD 0 * 2
  let points := points + (stat.RushingYards.getD 0 / 10) * 1
  let points := points + stat.RushingTouchdowns.getD 0 * 6
  let points := points + (stat.ReceivingYards.getD 0 / 10) * 1
  let points := points + stat.ReceivingTouchdowns.getD 0 * 6
  let points := points + stat.Receptions.getD 0 * 1
  let points := points - stat.Fumbles.getD 0 * 2
  pyRound1 points

end SportsDataScraper

/-- The scoring formula exactly as the specification states it
(§4.1): a single arithmetic expression over the nine fields, any
missing field treated as zero. -/
def specScoringFormula (stat : Stat) : ℚ :=
  stat.PassingYards.getD 0 / 25
  + stat.PassingTouchdowns.getD 0 * 4
  - stat.Interceptions.getD 0 * 2
  + stat.RushingYards.getD 0 / 10
  + stat.RushingTouchdowns.getD 0 * 6
  + stat.ReceivingYards.getD 0 / 10
  + stat.ReceivingTouchdowns.getD 0 * 6
  + stat.Receptions.getD 0 * 1
  - stat.Fumbles.getD 0 * 2

/-! ## Database model

The three tables of `api_lambda.py` (lines 76–101) as explicit row
lists.  `SERIAL` id assignment is modelled by a next-id counter bumped
on actual inserts; the `created_at`/`updated_at` timestamp columns are
not modelled (no claim mentions them); the `game_date` column is
modelled, with `CURRENT_DATE` passed in as the `today` argument. -/

structure PlayerRow where
  id : Nat
  name : String
  team : String
  position : String
  deriving Repr, DecidableEq

structure GameRow where
  id : Nat
  week : Int
  year : Int
  game_date : Int
  deriving Repr, DecidableEq

structure StatRow where
  player_id : Nat
  game_id : Nat
  fantasy_points : ℚ
  deriving Repr, DecidableEq

structure DB where
  players : List PlayerRow
  games : List GameRow
  stats : List StatRow
  nextPlayerId : Nat
  nextGameId : Nat
  deriving Repr, DecidableEq

def DB.empty : DB := ⟨[], [], [], 1, 1⟩

/-- The `UNIQUE(name, team)` key predicate of the `players` table. -/
def pKey (name team : String) (r : PlayerRow) : Bool :=
  r.name == name && r.team == team

/-- `INSERT INTO players ... ON CONFLICT (name, team) DO UPDATE SET
position = EXCLUDED.position RETURNING id` (`api_lambda.py` 118–124). -/
def upsertPlayer (name team position : String) (db : DB) : Nat × DB :=
  match db.players.find? (pKey name team) with
  | some r =>
      (r.id, { db with players := db.players.map (fun q =>
          if pKey name team q then { q with position := position } else q) })
  | none =>
      (db.nextPlayerId,
        { db with
            players := db.players ++
              [{ id := db.nextPlayerId, name := name, team := team, position := position }],
            nextPlayerId := db.nextPlayerId + 1 })

/-- The `UNIQUE(week, year)` key predicate of the `games` table. -/
def gKey (week year : Int) (g : GameRow) : Bool :=
  g.week == week && g.year == year

/-- `INSERT INTO games (week, year, game_date) VALUES (.., CURRENT_DATE)
ON CONFLICT (week, year) DO UPDATE SET game_date = EXCLUDED.game_date
RETURNING id` (`api_lambda.py` 106–112). -/
def upsertGame (week year today : Int) (db : DB) : Nat × DB :=
  match db.games.find? (gKey week year) with
  | some g =>
      (g.id, { db with games := db.games.map (fun q =>
          if gKey week year q then { q with game_date := today } else q) })
  | none =>
      (db.nextGameId,
        { db with
            games := db.games ++
              [{ id := db.nextGameId, week := week, year := year, game_date := today }],
            nextGameId := db.nextGameId + 1 })

/-- The `UNIQUE(player_id, game_id)` key predicate of `player_stats`. -/
def sKey (pid gid : Nat) (s : StatRow) : Bool :=
  s.player_id == pid && s.game_id == gid

/-- `INSERT INTO player_stats ... ON CONFLICT (player_id, game_id)
DO UPDATE SET fantasy_points = EXCLUDED.fantasy_points, ...`
(`api_lambda.py` 129–134). -/
def upsertStat (pid gid : Nat) (points : ℚ) (db : DB) : DB :=
  match db.stats.find? (sKey pid gid) with
  | some _ =>
      { db with stats := db.stats.map (fun q =>
          if sKey pid gid q then { q with fantasy_points := points } else q) }
  | none =>
      { db with stats := db.stats ++
          [{ player_id := pid, game_id := gid, fantasy_points := points }] }

/-- A normalized player record as built by the lambda's formatting loop
(`api_lambda.py` 43–53): name/team/position plus the computed
fantasy-point value stored under `stats`. -/
structure Player where
  name : String
  team : String
  position : String
  fantasy_points : ℚ
  deriving Repr, DecidableEq

/-- The body of one iteration of the player loop (`api_lambda.py`
117–134): upsert the player row, then upsert its stat row for the
current game. -/
def processPlayer (gid : Nat) (db : DB) (p : Player) : DB :=
  let r := upsertPlayer p.name p.team p.position db
  upsertStat r.1 gid p.fantasy_points r.2

/-- The player loop (`api_lambda.py` 115–140): `failing i` is the
oracle saying whether the per-player try-block for the `i`-th record
raises; a raising record is skipped (`except ... continue`) and the
success counter is not bumped.  Returns the final
`success_count` and database. -/
def runPlayers (failing : Nat → Bool) (gid : Nat) : Nat → DB → List Player → Nat × DB
  | _, db, [] => (0, db)
  | i, db, p :: rest =>
      if failing i then runPlayers failing gid (i+1) db rest
      else
        let db1 := processPlayer gid db p
        let r := runPlayers failing gid (i+1) db1 rest
        (r.1 + 1, r.2)

def noFail : Nat → Bool := fun _ => false

/-- The persistence step of `lambda_handler` (`api_lambda.py`
105–142): upsert the game row for (week, year), then run the player
loop against the resulting game id. -/
def persist (week year today : Int) (failing : Nat → Bool) (ps : List Player) (db : DB) :
    Nat × DB :=
  let g := upsertGame week year today db
  runPlayers failing g.1 0 g.2 ps

/-- The persistence step when no per-player write fails. -/
def persistOk (week year today : Int) (ps : List Player) (db : DB) : Nat × DB :=
  persist week year today noFail ps db

/-- Record `p` is persisted in `db` for game `gid`: a players row with
its (name, team) exists and a stat row links that row to the game. -/
def playerPersisted (gid : Nat) (p : Player) (db : DB) : Prop :=
  ∃ r ∈ db.players, r.name = p.name ∧ r.team = p.team ∧
    ∃ s ∈ db.stats, s.player_id = r.id ∧ s.game_id = gid

/-- The player loop with no failures, stripped of the index and the
counter: just the database evolution. -/
def runOk (gid : Nat) : DB → List Player → DB
  | db, [] => db
  | db, p :: rest => runOk gid (processPlayer gid db p) rest

def DB.pkeys (db : DB) : List (String × String) :=
  db.players.map (fun r => (r.name, r.team))

def DB.pids (db : DB) : List Nat := db.players.map (fun r => r.id)

def DB.gkeys (db : DB) : List (Int × Int) :=
  db.games.map (fun g => (g.week, g.year))

def DB.skeys (db : DB) : List (Nat × Nat) :=
  db.stats.map (fun s => (s.player_id, s.game_id))

/-- The well-formedness invariant the schema's constraints guarantee:
the `UNIQUE` keys of the three tables hold no duplicates, `SERIAL` ids
are distinct and below the next-id counter.  It holds of the empty
database and is preserved by every upsert. -/
def WF (db : DB) : Prop :=
  db.pkeys.Nodup ∧ db.pids.Nodup ∧ (∀ r ∈ db.players, r.id < db.nextPlayerId)
  ∧ db.gkeys.Nodup ∧ db.skeys.Nodup

/-- The players table resolves key (n, t) to id `pid`. -/
def hasPlayerId (n t : String) (pid : Nat) (db : DB) : Prop :=
  ∃ r, db.players.find? (pKey n t) = some r ∧ r.id = pid

/-- A stat row keyed (pid, gid) exists. -/
def hasStatKey (pid gid : Nat) (db : DB) : Prop :=
  ∃ s, db.stats.find? (sKey pid gid) = some s

/-- Overwrite the position stored under player key (n, t). -/
def setPos (n t pos : String) (db : DB) : DB :=
  { db with players := db.players.map (fun q =>
      if pKey n t q then { q with position := pos } else q) }

/-- Overwrite the points stored under stat key (pid, gid). -/
def setPts (pid gid : Nat) (pts : ℚ) (db : DB) : DB :=
  { db with stats := db.stats.map (fun q =>
      if sKey pid gid q then { q with fantasy_points := pts } else q) }

/-- Player key (n, t) resolves to id `pid` and currently stores
position `pos`; its stat row for `gid` stores `pts`. -/
def playerStateAt (n t : String) (pid : Nat) (pos : String) (gid : Nat)
    (pts : ℚ) (db : DB) : Prop :=
  (∃ r, db.players.find? (pKey n t) = some r ∧ r.id = pid ∧ r.position = pos)
  ∧ (∃ s, db.stats.find? (sKey pid gid) = some s ∧ s.fantasy_points = pts)

/-- Some record of the batch carries player key (n, t). -/
def containsKey (n t : String) (ps : List Player) : Prop :=
  ∃ p ∈ ps, p.name = n ∧ p.team = t

/-- The Bool form of the batch key predicate. -/
def pMatch (n t : String) (p : Player) : Bool := p.name == n && p.team == t

/-- The position carried by the last record of the batch with player
key (n, t), if any. -/
def lastPos (n t : String) (ps : List Player) : Option String :=
  (ps.reverse.find? (pMatch n t)).map (fun p => p.position)

/-! ## Entry point and normalizer -/

/-- The invocation event: optional `week` and `year` fields. -/
structure Event where
  week : Option Int := none
  year : Option Int := none
  deriving Repr, DecidableEq

/-- The process environment: the two variables the handler reads.  A
`none` entry is an absent variable; `os.environ.get` of it is `None`
and `os.environ[...]` of it raises `KeyError`. -/
structure Env where
  DB_SECRET_ARN : Option String := none
  SPORTSDATA_API_KEY : Option String := none
  deriving Repr, DecidableEq

/-- Database credentials as stored in the secret. -/
structure DbCreds where
  host : String := ""
  database : String := ""
  username : String := ""
  password : String := ""
  port : Int := 0
  deriving Repr, DecidableEq

/-- The external collaborators, as black boxes: each call either
returns parsed data or fails (`raise_for_status`, network or AWS
errors), the error string standing for the exception text.
`currentWeek` is the parsed `/scores/json/CurrentWeek` response with
its `Week` field read (`none` when the JSON lacks it). -/
structure Ext where
  currentWeek : Except String (Option Int)
  statsFor : Int → Int → Except String (List Stat)
  getSecret : String → Except String DbCreds
  connect : DbCreds → Except String Unit

/-- A response body: either a plain JSON-encoded string or the success
summary object `{message, week, year, total_players_found,
data_source}`. -/
inductive Body where
  | text (s : String)
  | summary (message : String) (week : Int) (year : Int) (total : Nat)
      (data_source : String)
  deriving Repr, DecidableEq

structure Response where
  statusCode : Nat
  body : Body
  deriving Repr, DecidableEq

/-- What one invocation produces: the response plus the final database
state (unchanged when the handler never wrote). -/
structure RunResult where
  response : Response
  db : DB
  deriving Repr, DecidableEq

namespace ApiLambda

/-- The formatting loop of `lambda_handler` (`api_lambda.py` 42–53):
`all_players = []` then one append per raw record. -/
def format_players (stats_data : List Stat) : List Player :=
  stats_data.foldl (fun all_players stat =>
    all_players ++ [Player.mk (stat.Name.getD "") (stat.Team.getD "")
      (stat.Position.getD "") (calculate_fantasy_points stat)]) []

/-- Week resolution (`api_lambda.py` 13, 27–31):
`current_week = event.get('week', 1)`, then `if not event.get('week'):`
— an absent or zero (falsy) week triggers the dedicated current-week
query, whose missing `Week` field defaults to 1. -/
def resolveWeek (event : Event) (ext : Ext) : Except String Int :=
  if event.week = none ∨ event.week = some 0 then
    match ext.currentWeek with
    | Except.error e => Except.error e
    | Except.ok wk => Except.ok (wk.getD 1)
  else Except.ok (event.week.getD 1)

/-- Lines 55–155 of `api_lambda.py` from the `all_players` emptiness
check on: skip persistence on an empty list, otherwise read the
secret, connect, and run the persistence step, then build the success
summary. -/
def afterStats (ext : Ext) (today : Int) (failing : Nat → Bool) (db : DB)
    (secret_arn : String) (current_year current_week : Int)
    (stats_data : List Stat) : Except String RunResult :=
  let all_players := format_players stats_data
  if all_players = [] then
    Except.ok ⟨⟨200, Body.text "No players found from API"⟩, db⟩
  else
    match ext.getSecret secret_arn with
    | Except.error e => Except.error e
    | Except.ok creds =>
      match ext.connect creds with
      | Except.error e => Except.error e
      | Except.ok _ =>
        let res := persist current_week current_year today failing all_players db
        Except.ok ⟨⟨200, Body.summary
          ("Successfully processed " ++ toString res.1
            ++ " players from SportsData.io API")
          current_week current_year all_players.length "sportsdata.io"⟩, res.2⟩

/-- The stats fetch (`api_lambda.py` 33–37) followed by the rest of
the block. -/
def afterWeek (ext : Ext) (today : Int) (failing : Nat → Bool) (db : DB)
    (secret_arn : String) (current_year current_week : Int) :
    Except String RunResult :=
  match ext.statsFor current_year current_week with
  | Except.error e => Except.error e
  | Except.ok stats_data =>
      afterStats ext today failing db secret_arn current_year current_week stats_data

/-- The body of the `try:` block of `lambda_handler` (`api_lambda.py`
22–155): resolve the week, then fetch and process. -/
def tryBlock (event : Event) (ext : Ext) (today : Int) (failing : Nat → Bool)
    (db : DB) (secret_arn : String) (current_year : Int) :
    Except String RunResult :=
  match resolveWeek event ext with
  | Except.error e => Except.error e
  | Except.ok current_week =>
      afterWeek ext today failing db secret_arn current_year current_week

/-- `lambda_handler` (`api_lambda.py` 7–162).  The read of
`DB_SECRET_ARN` with `os.environ[...]` sits before the `try:` block,
so its `KeyError` propagates uncaught (`Except.error`); everything
inside the block is caught and turned into a 500 response. -/
def lambda_handler (event : Event) (env : Env) (ext : Ext) (today : Int)
    (failing : Nat → Bool) (db : DB) : Except String RunResult :=
  if env.DB_SECRET_ARN = none then Except.error "KeyError: DB_SECRET_ARN"
  else if env.SPORTSDATA_API_KEY = none ∨ env.SPORTSDATA_API_KEY = some "" then
    Except.ok ⟨⟨400, Body.text "SPORTSDATA_API_KEY environment variable required"⟩, db⟩
  else
    Except.ok
      (match tryBlock event ext today failing db (env.DB_SECRET_ARN.getD "")
          (event.year.getD 2024) with
        | Except.ok r => r
        | Except.error e => ⟨⟨500, Body.text ("Error: " ++ e)⟩, db⟩)

end ApiLambda

/-- The week number a success summary reports, if the body is a
summary. -/
def summaryWeek (r : RunResult) : Option Int :=
  match r.response.body with
  | Body.summary _ w _ _ _ => some w
  | _ => none

/-- The scraper's canonical record (`sportsdata_scraper.py` 48–78):
the four canonical fields plus week/year, the raw stat fields and the
source label. -/
structure FormattedPlayer where
  name : String
  team : String
  position : String
  week : Int
  year : Int
  passing_yards : ℚ
  passing_tds : ℚ
  interceptions : ℚ
  rushing_yards : ℚ
  rushing_tds : ℚ
  receiving_yards : ℚ
  receiving_tds : ℚ
  receptions : ℚ
  fumbles : ℚ
  fantasy_points : ℚ
  source_url : String
  deriving Repr, DecidableEq

namespace SportsDataScraper

/-- The per-record projection the scraper's loop body performs;
`week or stat.get('Week', 1)` keeps a truthy (nonzero, present) week
argument and otherwise reads the record's own field. -/
def formatOne (week : Option Int) (year : Int) (stat : Stat) : FormattedPlayer where
  name := stat.Name.getD ""
  team := stat.Team.getD ""
  position := stat.Position.getD ""
  week := match week with
    | some w => if w ≠ 0 then w else stat.Week.getD 1
    | none => stat.Week.getD 1
  year := year
  passing_yards := stat.PassingYards.getD 0
  passing_tds := stat.PassingTouchdowns.getD 0
  interceptions := stat.Interceptions.getD 0
  rushing_yards := stat.RushingYards.getD 0
  rushing_tds := stat.RushingTouchdowns.getD 0
  receiving_yards := stat.ReceivingYards.getD 0
  receiving_tds := stat.ReceivingTouchdowns.getD 0
  receptions := stat.Receptions.getD 0
  fumbles := stat.Fumbles.getD 0
  fantasy_points := calculate_fantasy_points stat
  source_url := "sportsdata.io"

/-- `SportsDataScraper.format_player_data`: `players = []` then one
append per raw record (`sportsdata_scraper.py` 48–78). -/
def format_player_data (stats_data : List Stat) (week : Option Int)
    (year : Int) : List FormattedPlayer :=
  stats_data.foldl (fun players stat => players ++ [formatOne week year stat]) []

end SportsDataScraper

/-- A concrete external world used to evaluate the handler: current
week 7, one player record, a working secret store and connection. -/
def testExt : Ext where
  currentWeek := Except.ok (some 7)
  statsFor := fun _ _ => Except.ok [{ Name := some "A", Team := some "BUF", Position := some "QB" }]
  getSecret := fun _ => Except.ok {}
  connect := fun _ => Except.ok ()

end FFN

namespace FFN

/-- C1: `calculate_fantasy_points` returns exactly the specification's
formula value rounded to one decimal place, for every record; it is a
pure function of the nine stat fields (any missing field treated as
zero). -/
theorem c1_scoring_matches_spec_formula (stat : Stat) :
    ApiLambda.calculate_fantasy_points stat = pyRound1 (specScoringFormula stat) := by
  unfold ApiLambda.calculate_fantasy_points specScoringFormula
  ring_nf

/-- Witness for C1 at a concrete record. -/
theorem c1_scoring_matches_spec_formula_witness :
    ApiLambda.calculate_fantasy_points { PassingYards := some 300 }
      = pyRound1 (specScoringFormula { PassingYards := some 300 }) :=
  c1_scoring_matches_spec_formula { PassingYards := some 300 }

/-- C5: the three concrete scoring examples from §8: the all-zero
record scores 0.0; 300 passing yards, 2 passing TDs, 1 interception
scores 18.0; 10 receptions, 120 receiving yards, 1 receiving TD,
1 fumble scores 26.0. -/
theorem c5_scoring_examples :
    ApiLambda.calculate_fantasy_points {} = 0
    ∧ ApiLambda.calculate_fantasy_points
        { PassingYards := some 300, PassingTouchdowns := some 2,
          Interceptions := some 1 } = 18
    ∧ ApiLambda.calculate_fantasy_points
        { Receptions := some 10, ReceivingYards := some 120,
          ReceivingTouchdowns := some 1, Fumbles := some 1 } = 26 := by
  refine ⟨?_, ?_, ?_⟩ <;>
    norm_num [ApiLambda.calculate_fantasy_points, pyRound1, roundHalfEven, ratFloor]

/-- C10: the module-level scoring function in `api_lambda.py` and the
method in `sportsdata_scraper.py` are extensionally equal. -/
theorem c10_two_scorers_agree (stat : Stat) :
    ApiLambda.calculate_fantasy_points stat
      = SportsDataScraper.calculate_fantasy_points stat := rfl

/-- Witness for C10 at a concrete record. -/
theorem c10_two_scorers_agree_witness :
    ApiLambda.calculate_fantasy_points { PassingYards := some 300 }
      = SportsDataScraper.calculate_fantasy_points { PassingYards := some 300 } :=
  c10_two_scorers_agree { PassingYards := some 300 }

/-! ## Supporting lemmas about the upserts and the player loop -/

theorem list_map_eq_self {α : Type} (l : List α) (f : α → α)
    (h : ∀ x ∈ l, f x = x) : l.map f = l := by
  induction l with
  | nil => rfl
  | cons a t ih =>
      simp only [List.map_cons, h a (List.mem_cons_self a t)]
      rw [ih fun x hx => h x (List.mem_cons_of_mem a hx)]

theorem pKey_true_iff (n t : String) (r : PlayerRow) :
    pKey n t r = true ↔ r.name = n ∧ r.team = t := by
  simp [pKey]

theorem gKey_true_iff (w y : Int) (g : GameRow) :
    gKey w y g = true ↔ g.week = w ∧ g.year = y := by
  simp [gKey]

theorem sKey_true_iff (pid gid : Nat) (s : StatRow) :
    sKey pid gid s = true ↔ s.player_id = pid ∧ s.game_id = gid := by
  simp [sKey]

theorem runPlayers_cons_of_true (f : Nat → Bool) (gid i : Nat) (db : DB)
    (p : Player) (ps : List Player) (h : f i = true) :
    runPlayers f gid i db (p :: ps) = runPlayers f gid (i+1) db ps := by
  conv_lhs => unfold runPlayers
  rw [h]
  simp

theorem runPlayers_cons_of_false (f : Nat → Bool) (gid i : Nat) (db : DB)
    (p : Player) (ps : List Player) (h : f i = false) :
    runPlayers f gid i db (p :: ps)
      = ((runPlayers f gid (i+1) (processPlayer gid db p) ps).1 + 1,
         (runPlayers f gid (i+1) (processPlayer gid db p) ps).2) := by
  conv_lhs => unfold runPlayers
  rw [h]
  simp

/-- `upsertPlayer` never deletes a row and preserves every row's
name, team and id. -/
theorem playerPersisted_upsertPlayer (gid : Nat) (p : Player)
    (n t pos : String) (db : DB) (h : playerPersisted gid p db) :
    playerPersisted gid p (upsertPlayer n t pos db).2 := by
  obtain ⟨r, hr, hn, ht, s, hs, h1, h2⟩ := h
  unfold upsertPlayer
  cases hfind : db.players.find? (pKey n t) with
  | some q =>
      refine ⟨if pKey n t r then { r with position := pos } else r,
        List.mem_map_of_mem _ hr, ?_, ?_, s, hs, ?_, h2⟩ <;>
        · split <;> simp [hn, ht, h1]
  | none =>
      exact ⟨r, List.mem_append_left _ hr, hn, ht, s, hs, h1, h2⟩

/-- `upsertStat` never deletes a rows, never changes the `players`
table, and preserves every stat row's key columns. -/
theorem playerPersisted_upsertStat (gid : Nat) (p : Player)
    (pid gid' : Nat) (pts : ℚ) (db : DB) (h : playerPersisted gid p db) :
    playerPersisted gid p (upsertStat pid gid' pts db) := by
  obtain ⟨r, hr, hn, ht, s, hs, h1, h2⟩ := h
  unfold upsertStat
  cases hfind : db.stats.find? (sKey pid gid') with
  | some q =>
      refine ⟨r, hr, hn, ht,
        if sKey pid gid' s then { s with fantasy_points := pts } else s,
        List.mem_map_of_mem _ hs, ?_, ?_⟩ <;>
        · split <;> simp [h1, h2]
  | none =>
      exact ⟨r, hr, hn, ht, s, List.mem_append_left _ hs, h1, h2⟩

theorem playerPersisted_processPlayer (gid : Nat) (p q : Player)
    (gid' : Nat) (db : DB) (h : playerPersisted gid p db) :
    playerPersisted gid p (processPlayer gid' db q) :=
  playerPersisted_upsertStat gid p _ gid' _ _
    (playerPersisted_upsertPlayer gid p _ _ _ db h)

/-- After `upsertPlayer n t pos`, a players row with key (n, t) exists
and carries the returned id. -/
theorem upsertPlayer_found (n t pos : String) (db : DB) :
    ∃ r ∈ (upsertPlayer n t pos db).2.players,
      r.name = n ∧ r.team = t ∧ r.id = (upsertPlayer n t pos db).1 := by
  unfold upsertPlayer
  cases hfind : db.players.find? (pKey n t) with
  | some q =>
      have hq := List.find?_some hfind
      have hmem := List.mem_of_find?_eq_some hfind
      obtain ⟨hqn, hqt⟩ := (pKey_true_iff n t q).1 hq
      refine ⟨if pKey n t q then { q with position := pos } else q,
        List.mem_map_of_mem _ hmem, ?_⟩
      simp [hq, hqn, hqt]
  | none =>
      exact ⟨{ id := db.nextPlayerId, name := n, team := t, position := pos },
        List.mem_append_right _ (List.mem_singleton_self _), rfl, rfl, rfl⟩

/-- After `upsertStat pid gid`, a stat row keyed (pid, gid) exists. -/
theorem upsertStat_found (pid gid : Nat) (pts : ℚ) (db : DB) :
    ∃ s ∈ (upsertStat pid gid pts db).stats,
      s.player_id = pid ∧ s.game_id = gid := by
  unfold upsertStat
  cases hfind : db.stats.find? (sKey pid gid) with
  | some q =>
      have hq := List.find?_some hfind
      have hmem := List.mem_of_find?_eq_some hfind
      obtain ⟨h1, h2⟩ := (sKey_true_iff pid gid q).1 hq
      refine ⟨if sKey pid gid q then { q with fantasy_points := pts } else q,
        List.mem_map_of_mem _ hmem, ?_⟩
      simp [hq, h1, h2]
  | none =>
      exact ⟨{ player_id := pid, game_id := gid, fantasy_points := pts },
        List.mem_append_right _ (List.mem_singleton_self _), rfl, rfl⟩

theorem upsertStat_players (pid gid : Nat) (pts : ℚ) (db : DB) :
    (upsertStat pid gid pts db).players = db.players := by
  unfold upsertStat
  cases db.stats.find? (sKey pid gid) <;> rfl

/-- One successful loop iteration persists its own record. -/
theorem playerPersisted_self (gid : Nat) (p : Player) (db : DB) :
    playerPersisted gid p (processPlayer gid db p) := by
  unfold processPlayer playerPersisted
  obtain ⟨r, hr, hn, ht, hid⟩ := upsertPlayer_found p.name p.team p.position db
  obtain ⟨s, hs, hs1, hs2⟩ :=
    upsertStat_found (upsertPlayer p.name p.team p.position db).1 gid p.fantasy_points
      (upsertPlayer p.name p.team p.position db).2
  rw [upsertStat_players]
  exact ⟨r, hr, hn, ht, s, hs, by rw [hs1, hid], hs2⟩

/-- The player loop never un-persists a record. -/
theorem playerPersisted_runPlayers (f : Nat → Bool) (gid gid' : Nat) (p : Player) :
    ∀ (ps : List Player) (i : Nat) (db : DB), playerPersisted gid p db →
      playerPersisted gid p (runPlayers f gid' i db ps).2 := by
  intro ps
  induction ps with
  | nil => intro i db h; exact h
  | cons q rest ih =>
      intro i db h
      cases hfi : f i with
      | true =>
          rw [runPlayers_cons_of_true f gid' i db q rest hfi]
          exact ih (i+1) db h
      | false =>
          rw [runPlayers_cons_of_false f gid' i db q rest hfi]
          exact ih (i+1) (processPlayer gid' db q)
            (playerPersisted_processPlayer gid p q gid' db h)

/-- Every record whose iteration does not fail is persisted by the
loop: established at its own iteration, preserved ever after. -/
theorem runPlayers_persists (f : Nat → Bool) (gid : Nat) :
    ∀ (ps : List Player) (i : Nat) (db : DB) (j : Nat) (hj : j < ps.length),
      f (i + j) = false →
      playerPersisted gid (ps.get ⟨j, hj⟩) (runPlayers f gid i db ps).2 := by
  intro ps
  induction ps with
  | nil => intro i db j hj; exact absurd hj (by simp)
  | cons p rest ih =>
      intro i db j hj hf
      match j with
      | 0 =>
          have hfi : f i = false := by simpa using hf
          rw [runPlayers_cons_of_false f gid i db p rest hfi]
          exact playerPersisted_runPlayers f gid gid p rest (i+1) _
            (playerPersisted_self gid p db)
      | Nat.succ j' =>
          have hj' : j' < rest.length := by simpa using hj
          have hf' : f ((i+1) + j') = false := by
            have he : (i+1) + j' = i + (j'+1) := by omega
            rw [he]; exact hf
          cases hfi : f i with
          | true =>
              rw [runPlayers_cons_of_true f gid i db p rest hfi]
              exact ih (i+1) db j' hj' hf'
          | false =>
              rw [runPlayers_cons_of_false f gid i db p rest hfi]
              exact ih (i+1) (processPlayer gid db p) j' hj' hf'

/-- The loop's success count plus its failure count is the batch
size. -/
theorem runPlayers_count (f : Nat → Bool) (gid : Nat) :
    ∀ (ps : List Player) (i : Nat) (db : DB),
      (runPlayers f gid i db ps).1
        + (List.range ps.length).countP (fun j => f (i + j)) = ps.length := by
  intro ps
  induction ps with
  | nil => intro i db; simp [runPlayers]
  | cons p rest ih =>
      intro i db
      have hcomp : ((fun j => f (i + j)) ∘ Nat.succ) = fun j => f ((i+1) + j) := by
        funext j
        simp only [Function.comp_apply]
        congr 1
        omega
      cases hfi : f i with
      | true =>
          have hshift : (List.range (rest.length + 1)).countP (fun j => f (i + j))
              = (List.range rest.length).countP (fun j => f ((i+1) + j)) + 1 := by
            rw [List.range_succ_eq_map, List.countP_cons, List.countP_map, hcomp]
            simp [hfi]
          rw [runPlayers_cons_of_true f gid i db p rest hfi, List.length_cons, hshift]
          have := ih (i+1) db
          omega
      | false =>
          have hshift : (List.range (rest.length + 1)).countP (fun j => f (i + j))
              = (List.range rest.length).countP (fun j => f ((i+1) + j)) := by
            rw [List.range_succ_eq_map, List.countP_cons, List.countP_map, hcomp]
            simp [hfi]
          rw [runPlayers_cons_of_false f gid i db p rest hfi, List.length_cons, hshift]
          have := ih (i+1) (processPlayer gid db p)
          omega

/-- C2: if exactly one record of the batch fails its per-player
database write, the persistence step still persists every other
record and reports success count = total − 1. -/
theorem c2_single_bad_record (week year today : Int) (failing : Nat → Bool)
    (ps : List Player) (db : DB)
    (h : (List.range ps.length).countP failing = 1) :
    (persist week year today failing ps db).1 = ps.length - 1
    ∧ ∀ (j : Nat) (hj : j < ps.length), failing j = false →
        playerPersisted (upsertGame week year today db).1 (ps.get ⟨j, hj⟩)
          (persist week year today failing ps db).2 := by
  constructor
  · have hc := runPlayers_count failing (upsertGame week year today db).1 ps 0
      (upsertGame week year today db).2
    have hz : (fun j => failing (0 + j)) = failing := by
      funext j; rw [Nat.zero_add]
    rw [hz] at hc
    have hp : persist week year today failing ps db
        = runPlayers failing (upsertGame week year today db).1 0
            (upsertGame week year today db).2 ps := rfl
    rw [hp]
    omega
  · intro j hj hf
    have hf0 : failing (0 + j) = false := by rwa [Nat.zero_add]
    exact runPlayers_persists failing (upsertGame week year today db).1 ps 0
      (upsertGame week year today db).2 j hj hf0

/-- Witness for C2: a 3-record batch whose middle record fails:
success count is 2 and records 0 and 2 are persisted. -/
theorem c2_single_bad_record_witness :
    (persist 1 2024 0 (fun i => decide (i = 1))
        [⟨"A", "BUF", "QB", 10⟩, ⟨"B", "MIA", "RB", 9⟩, ⟨"C", "NE", "WR", 8⟩]
        DB.empty).1 = 2
    ∧ playerPersisted (upsertGame 1 2024 0 DB.empty).1 ⟨"A", "BUF", "QB", 10⟩
        (persist 1 2024 0 (fun i => decide (i = 1))
          [⟨"A", "BUF", "QB", 10⟩, ⟨"B", "MIA", "RB", 9⟩, ⟨"C", "NE", "WR", 8⟩]
          DB.empty).2
    ∧ playerPersisted (upsertGame 1 2024 0 DB.empty).1 ⟨"C", "NE", "WR", 8⟩
        (persist 1 2024 0 (fun i => decide (i = 1))
          [⟨"A", "BUF", "QB", 10⟩, ⟨"B", "MIA", "RB", 9⟩, ⟨"C", "NE", "WR", 8⟩]
          DB.empty).2 := by
  obtain ⟨h1, h2⟩ := c2_single_bad_record 1 2024 0 (fun i => decide (i = 1))
    [⟨"A", "BUF", "QB", 10⟩, ⟨"B", "MIA", "RB", 9⟩, ⟨"C", "NE", "WR", 8⟩]
    DB.empty (by decide)
  exact ⟨h1, h2 0 (by decide) (by decide), h2 2 (by decide) (by decide)⟩

/-! ## Toolkit for the idempotence and conflict-overwrite claims -/

theorem find?_map_pred {α : Type} (l : List α) (f : α → α) (p : α → Bool)
    (h : ∀ x, p (f x) = p x) : (l.map f).find? p = (l.find? p).map f := by
  rw [List.find?_map]
  have hpf : p ∘ f = p := funext h
  rw [hpf]

theorem map_comm_of_comm {α : Type} (l : List α) (f g : α → α)
    (h : ∀ x, f (g x) = g (f x)) : (l.map g).map f = (l.map f).map g := by
  rw [List.map_map, List.map_map]
  exact List.map_congr_left (fun x _ => h x)

theorem map_map_absorb {α β : Type} (l : List α) (f : α → β) (g : α → α)
    (h : ∀ x, f (g x) = f x) : (l.map g).map f = l.map f := by
  rw [List.map_map]
  exact List.map_congr_left (fun x _ => h x)

/-- The player-update map never changes a row's key fields or id. -/
theorem pKey_setPos_inv (a b n t pos : String) (q : PlayerRow) :
    pKey a b (if pKey n t q then { q with position := pos } else q) = pKey a b q := by
  split <;> rfl

theorem id_setPos_inv (n t pos : String) (q : PlayerRow) :
    (if pKey n t q then { q with position := pos } else q).id = q.id := by
  split <;> rfl

/-- The stat-update map never changes a row's key columns. -/
theorem sKey_setPts_inv (a b pid gid : Nat) (pts : ℚ) (q : StatRow) :
    sKey a b (if sKey pid gid q then { q with fantasy_points := pts } else q)
      = sKey a b q := by
  split <;> rfl

/-- The game-update map never changes a row's key columns or id. -/
theorem gKey_setDate_inv (a b w y today : Int) (q : GameRow) :
    gKey a b (if gKey w y q then { q with game_date := today } else q) = gKey a b q := by
  split <;> rfl

/-- `upsertPlayer` on a present key is `setPos` plus the stored id. -/
theorem upsertPlayer_eq_setPos (n t pos : String) (db : DB) (r : PlayerRow)
    (hfind : db.players.find? (pKey n t) = some r) :
    upsertPlayer n t pos db = (r.id, setPos n t pos db) := by
  unfold upsertPlayer
  rw [hfind]
  rfl

/-- `upsertPlayer` on an absent key appends a fresh row. -/
theorem upsertPlayer_eq_append (n t pos : String) (db : DB)
    (hfind : db.players.find? (pKey n t) = none) :
    upsertPlayer n t pos db = (db.nextPlayerId,
      { db with
          players := db.players ++
            [{ id := db.nextPlayerId, name := n, team := t, position := pos }],
          nextPlayerId := db.nextPlayerId + 1 }) := by
  unfold upsertPlayer
  rw [hfind]

/-- `upsertStat` on a present key is `setPts`. -/
theorem upsertStat_eq_setPts (pid gid : Nat) (pts : ℚ) (db : DB) (s : StatRow)
    (hfind : db.stats.find? (sKey pid gid) = some s) :
    upsertStat pid gid pts db = setPts pid gid pts db := by
  unfold upsertStat
  rw [hfind]
  rfl

/-- `upsertStat` on an absent key appends a fresh row. -/
theorem upsertStat_eq_append (pid gid : Nat) (pts : ℚ) (db : DB)
    (hfind : db.stats.find? (sKey pid gid) = none) :
    upsertStat pid gid pts db =
      { db with stats := db.stats ++
          [{ player_id := pid, game_id := gid, fantasy_points := pts }] } := by
  unfold upsertStat
  rw [hfind]

/-- With no duplicate keys, every row matching a found key is the
found row itself. -/
theorem player_match_unique (n t : String) (db : DB) (hnd : db.pkeys.Nodup)
    (r : PlayerRow) (hfind : db.players.find? (pKey n t) = some r) :
    ∀ w ∈ db.players, pKey n t w = true → w = r := by
  intro w hw hkw
  have hr := List.mem_of_find?_eq_some hfind
  have hkr := List.find?_some hfind
  obtain ⟨hwn, hwt⟩ := (pKey_true_iff n t w).1 hkw
  obtain ⟨hrn, hrt⟩ := (pKey_true_iff n t r).1 hkr
  exact List.inj_on_of_nodup_map hnd hw hr (by rw [hwn, hwt, hrn, hrt])

theorem stat_match_unique (pid gid : Nat) (db : DB) (hnd : db.skeys.Nodup)
    (s : StatRow) (hfind : db.stats.find? (sKey pid gid) = some s) :
    ∀ w ∈ db.stats, sKey pid gid w = true → w = s := by
  intro w hw hkw
  have hs := List.mem_of_find?_eq_some hfind
  have hks := List.find?_some hfind
  obtain ⟨hw1, hw2⟩ := (sKey_true_iff pid gid w).1 hkw
  obtain ⟨hs1, hs2⟩ := (sKey_true_iff pid gid s).1 hks
  exact List.inj_on_of_nodup_map hnd hw hs (by rw [hw1, hw2, hs1, hs2])

theorem game_match_unique (w y : Int) (db : DB) (hnd : db.gkeys.Nodup)
    (g : GameRow) (hfind : db.games.find? (gKey w y) = some g) :
    ∀ q ∈ db.games, gKey w y q = true → q = g := by
  intro q hq hkq
  have hg := List.mem_of_find?_eq_some hfind
  have hkg := List.find?_some hfind
  obtain ⟨hq1, hq2⟩ := (gKey_true_iff w y q).1 hkq
  obtain ⟨hg1, hg2⟩ := (gKey_true_iff w y g).1 hkg
  exact List.inj_on_of_nodup_map hnd hq hg (by rw [hq1, hq2, hg1, hg2])

/-- Overwriting the position with the value it already has is a
no-op. -/
theorem setPos_eq_self (n t : String) (db : DB) (hnd : db.pkeys.Nodup)
    (r : PlayerRow) (hfind : db.players.find? (pKey n t) = some r) :
    setPos n t r.position db = db := by
  unfold setPos
  have hmap : db.players.map (fun q =>
      if pKey n t q then { q with position := r.position } else q) = db.players := by
    apply list_map_eq_self
    intro w hw
    by_cases hkw : pKey n t w
    · rw [if_pos hkw, player_match_unique n t db hnd r hfind w hw hkw]
    · rw [if_neg hkw]
  rw [hmap]

/-- Overwriting the points with the value it already has is a
no-op. -/
theorem setPts_eq_self (pid gid : Nat) (db : DB) (hnd : db.skeys.Nodup)
    (s : StatRow) (hfind : db.stats.find? (sKey pid gid) = some s) :
    setPts pid gid s.fantasy_points db = db := by
  unfold setPts
  have hmap : db.stats.map (fun q =>
      if sKey pid gid q then { q with fantasy_points := s.fantasy_points } else q)
      = db.stats := by
    apply list_map_eq_self
    intro w hw
    by_cases hkw : sKey pid gid w
    · rw [if_pos hkw, stat_match_unique pid gid db hnd s hfind w hw hkw]
    · rw [if_neg hkw]
  rw [hmap]

theorem find?_append_some {α : Type} (l₁ l₂ : List α) (p : α → Bool) (a : α)
    (h : l₁.find? p = some a) : (l₁ ++ l₂).find? p = some a := by
  rw [List.find?_append, h]
  rfl

theorem runOk_nil (gid : Nat) (db : DB) : runOk gid db [] = db := rfl

theorem runOk_cons (gid : Nat) (db : DB) (p : Player) (ps : List Player) :
    runOk gid db (p :: ps) = runOk gid (processPlayer gid db p) ps := rfl

theorem setPos_players (n t pos : String) (db : DB) :
    (setPos n t pos db).players
      = db.players.map (fun q => if pKey n t q then { q with position := pos } else q) := rfl

theorem setPos_stats (n t pos : String) (db : DB) :
    (setPos n t pos db).stats = db.stats := rfl

theorem setPts_stats (pid gid : Nat) (pts : ℚ) (db : DB) :
    (setPts pid gid pts db).stats
      = db.stats.map (fun q =>
          if sKey pid gid q then { q with fantasy_points := pts } else q) := rfl

theorem setPts_players (pid gid : Nat) (pts : ℚ) (db : DB) :
    (setPts pid gid pts db).players = db.players := rfl

theorem upsertPlayer_stats (n t pos : String) (db : DB) :
    (upsertPlayer n t pos db).2.stats = db.stats := by
  unfold upsertPlayer
  cases db.players.find? (pKey n t) <;> rfl

theorem upsertPlayer_games (n t pos : String) (db : DB) :
    (upsertPlayer n t pos db).2.games = db.games := by
  unfold upsertPlayer
  cases db.players.find? (pKey n t) <;> rfl

theorem upsertPlayer_nextGameId (n t pos : String) (db : DB) :
    (upsertPlayer n t pos db).2.nextGameId = db.nextGameId := by
  unfold upsertPlayer
  cases db.players.find? (pKey n t) <;> rfl

theorem upsertStat_games (pid gid : Nat) (pts : ℚ) (db : DB) :
    (upsertStat pid gid pts db).games = db.games := by
  unfold upsertStat
  cases db.stats.find? (sKey pid gid) <;> rfl

theorem upsertStat_nextGameId (pid gid : Nat) (pts : ℚ) (db : DB) :
    (upsertStat pid gid pts db).nextGameId = db.nextGameId := by
  unfold upsertStat
  cases db.stats.find? (sKey pid gid) <;> rfl

theorem processPlayer_games (gid : Nat) (db : DB) (p : Player) :
    (processPlayer gid db p).games = db.games := by
  unfold processPlayer
  rw [upsertStat_games, upsertPlayer_games]

theorem processPlayer_nextGameId (gid : Nat) (db : DB) (p : Player) :
    (processPlayer gid db p).nextGameId = db.nextGameId := by
  unfold processPlayer
  rw [upsertStat_nextGameId, upsertPlayer_nextGameId]

theorem runOk_games (gid : Nat) :
    ∀ (ps : List Player) (db : DB), (runOk gid db ps).games = db.games := by
  intro ps
  induction ps with
  | nil => intro db; rfl
  | cons p rest ih =>
      intro db
      rw [runOk_cons, ih, processPlayer_games]

theorem runOk_nextGameId (gid : Nat) :
    ∀ (ps : List Player) (db : DB), (runOk gid db ps).nextGameId = db.nextGameId := by
  intro ps
  induction ps with
  | nil => intro db; rfl
  | cons p rest ih =>
      intro db
      rw [runOk_cons, ih, processPlayer_nextGameId]

/-- Player-key resolution survives `setPos` for any key. -/
theorem hasPlayerId_setPos (n t : String) (pid : Nat) (n' t' pos' : String)
    (db : DB) (h : hasPlayerId n t pid db) :
    hasPlayerId n t pid (setPos n' t' pos' db) := by
  obtain ⟨r, hfind, hid⟩ := h
  refine ⟨if pKey n' t' r then { r with position := pos' } else r, ?_, ?_⟩
  · rw [setPos_players, find?_map_pred _ _ _ (pKey_setPos_inv n t n' t' pos'), hfind]
    rfl
  · rw [id_setPos_inv]
    exact hid

theorem hasPlayerId_upsertPlayer (n t : String) (pid : Nat) (n' t' pos' : String)
    (db : DB) (h : hasPlayerId n t pid db) :
    hasPlayerId n t pid (upsertPlayer n' t' pos' db).2 := by
  cases hfind' : db.players.find? (pKey n' t') with
  | some q =>
      rw [upsertPlayer_eq_setPos n' t' pos' db q hfind']
      exact hasPlayerId_setPos n t pid n' t' pos' db h
  | none =>
      rw [upsertPlayer_eq_append n' t' pos' db hfind']
      obtain ⟨r, hfind, hid⟩ := h
      exact ⟨r, find?_append_some _ _ _ r hfind, hid⟩

theorem hasPlayerId_upsertStat (n t : String) (pid : Nat) (pid' gid' : Nat)
    (pts : ℚ) (db : DB) (h : hasPlayerId n t pid db) :
    hasPlayerId n t pid (upsertStat pid' gid' pts db) := by
  obtain ⟨r, hfind, hid⟩ := h
  refine ⟨r, ?_, hid⟩
  rw [show (upsertStat pid' gid' pts db).players = db.players from by
    unfold upsertStat; cases db.stats.find? (sKey pid' gid') <;> rfl]
  exact hfind

theorem hasPlayerId_processPlayer (n t : String) (pid : Nat) (gid : Nat)
    (q : Player) (db : DB) (h : hasPlayerId n t pid db) :
    hasPlayerId n t pid (processPlayer gid db q) :=
  hasPlayerId_upsertStat n t pid _ gid _ _
    (hasPlayerId_upsertPlayer n t pid _ _ _ db h)

/-- Stat-key presence survives `setPts` for any key. -/
theorem hasStatKey_setPts (pid gid pid' gid' : Nat) (pts : ℚ) (db : DB)
    (h : hasStatKey pid gid db) :
    hasStatKey pid gid (setPts pid' gid' pts db) := by
  obtain ⟨s, hfind⟩ := h
  refine ⟨if sKey pid' gid' s then { s with fantasy_points := pts } else s, ?_⟩
  rw [setPts_stats, find?_map_pred _ _ _ (sKey_setPts_inv pid gid pid' gid' pts), hfind]
  rfl

theorem hasStatKey_upsertStat (pid gid pid' gid' : Nat) (pts : ℚ) (db : DB)
    (h : hasStatKey pid gid db) :
    hasStatKey pid gid (upsertStat pid' gid' pts db) := by
  cases hfind' : db.stats.find? (sKey pid' gid') with
  | some q =>
      rw [upsertStat_eq_setPts pid' gid' pts db q hfind']
      exact hasStatKey_setPts pid gid pid' gid' pts db h
  | none =>
      rw [upsertStat_eq_append pid' gid' pts db hfind']
      obtain ⟨s, hfind⟩ := h
      exact ⟨s, find?_append_some _ _ _ s hfind⟩

theorem hasStatKey_processPlayer (pid gid gid' : Nat) (q : Player) (db : DB)
    (h : hasStatKey pid gid db) :
    hasStatKey pid gid (processPlayer gid' db q) := by
  unfold processPlayer
  apply hasStatKey_upsertStat
  obtain ⟨s, hfind⟩ := h
  refine ⟨s, ?_⟩
  rw [upsertPlayer_stats]
  exact hfind

/-- After `upsertPlayer`, the key resolves to the returned id and the
row stores the written position. -/
theorem upsertPlayer_resolves (n t pos : String) (db : DB) :
    ∃ r, (upsertPlayer n t pos db).2.players.find? (pKey n t) = some r
      ∧ r.id = (upsertPlayer n t pos db).1 ∧ r.position = pos := by
  cases hfind : db.players.find? (pKey n t) with
  | some q =>
      rw [upsertPlayer_eq_setPos n t pos db q hfind]
      have hq := List.find?_some hfind
      refine ⟨{ q with position := pos }, ?_, rfl, rfl⟩
      rw [setPos_players, find?_map_pred _ _ _ (pKey_setPos_inv n t n t pos), hfind]
      simp [hq]
  | none =>
      rw [upsertPlayer_eq_append n t pos db hfind]
      refine ⟨{ id := db.nextPlayerId, name := n, team := t, position := pos },
        ?_, rfl, rfl⟩
      rw [List.find?_append, hfind]
      simp [List.find?, pKey]

/-- After `upsertStat`, the key resolves to a row storing the written
points. -/
theorem upsertStat_resolves (pid gid : Nat) (pts : ℚ) (db : DB) :
    ∃ s, (upsertStat pid gid pts db).stats.find? (sKey pid gid) = some s
      ∧ s.fantasy_points = pts := by
  cases hfind : db.stats.find? (sKey pid gid) with
  | some q =>
      rw [upsertStat_eq_setPts pid gid pts db q hfind]
      have hq := List.find?_some hfind
      refine ⟨{ q with fantasy_points := pts }, ?_, rfl⟩
      rw [setPts_stats, find?_map_pred _ _ _ (sKey_setPts_inv pid gid pid gid pts), hfind]
      simp [hq]
  | none =>
      rw [upsertStat_eq_append pid gid pts db hfind]
      refine ⟨{ player_id := pid, game_id := gid, fantasy_points := pts }, ?_, rfl⟩
      rw [List.find?_append, hfind]
      simp [List.find?, sKey]

/-- One loop iteration leaves its record's key resolving to the id the
player upsert returned, storing exactly the record's position and
points. -/
theorem processPlayer_establishes (gid : Nat) (db : DB) (p : Player) :
    playerStateAt p.name p.team (upsertPlayer p.name p.team p.position db).1
      p.position gid p.fantasy_points (processPlayer gid db p) := by
  unfold processPlayer
  constructor
  · obtain ⟨r, hfind, hid, hpos⟩ := upsertPlayer_resolves p.name p.team p.position db
    refine ⟨r, ?_, hid, hpos⟩
    rw [show ∀ (d : DB) (a b : Nat) (x : ℚ), (upsertStat a b x d).players = d.players from
      fun d a b x => by unfold upsertStat; cases d.stats.find? (sKey a b) <;> rfl]
    exact hfind
  · obtain ⟨s, hfind, hpts⟩ := upsertStat_resolves
      (upsertPlayer p.name p.team p.position db).1 gid p.fantasy_points
      (upsertPlayer p.name p.team p.position db).2
    exact ⟨s, hfind, hpts⟩

theorem WF_setPos (n t pos : String) (db : DB) (h : WF db) : WF (setPos n t pos db) := by
  obtain ⟨h1, h2, h3, h4, h5⟩ := h
  refine ⟨?_, ?_, ?_, h4, h5⟩
  · unfold DB.pkeys
    rw [setPos_players,
      map_map_absorb db.players (fun r => (r.name, r.team)) _ (fun x => by split <;> rfl)]
    exact h1
  · unfold DB.pids
    rw [setPos_players,
      map_map_absorb db.players (fun r => r.id) _ (fun x => by split <;> rfl)]
    exact h2
  · intro r hr
    rw [setPos_players] at hr
    obtain ⟨w, hw, rfl⟩ := List.mem_map.1 hr
    rw [id_setPos_inv]
    exact h3 w hw

theorem WF_appendPlayer (n t pos : String) (db : DB) (h : WF db)
    (hno : ∀ x ∈ db.players, ¬ pKey n t x = true) :
    WF { db with
          players := db.players ++
            [{ id := db.nextPlayerId, name := n, team := t, position := pos }],
          nextPlayerId := db.nextPlayerId + 1 } := by
  obtain ⟨h1, h2, h3, h4, h5⟩ := h
  refine ⟨?_, ?_, ?_, h4, h5⟩
  · unfold DB.pkeys at h1 ⊢
    simp only [List.map_append, List.map_cons, List.map_nil]
    refine List.Nodup.append h1 (List.nodup_singleton _) ?_
    intro a ha ha2
    rw [List.mem_singleton] at ha2
    subst ha2
    obtain ⟨w, hw, hkey⟩ := List.mem_map.1 ha
    apply hno w hw
    rw [pKey_true_iff]
    exact ⟨congrArg Prod.fst hkey, congrArg Prod.snd hkey⟩
  · unfold DB.pids at h2 ⊢
    simp only [List.map_append, List.map_cons, List.map_nil]
    refine List.Nodup.append h2 (List.nodup_singleton _) ?_
    intro a ha ha2
    rw [List.mem_singleton] at ha2
    subst ha2
    obtain ⟨w, hw, hkey⟩ := List.mem_map.1 ha
    have := h3 w hw
    omega
  · intro r hr
    simp only at hr ⊢
    rcases List.mem_append.1 hr with hold | hnew
    · have := h3 r hold
      omega
    · rw [List.mem_singleton] at hnew
      subst hnew
      exact Nat.lt_succ_self _

theorem WF_upsertPlayer (n t pos : String) (db : DB) (h : WF db) :
    WF (upsertPlayer n t pos db).2 := by
  cases hfind : db.players.find? (pKey n t) with
  | some q =>
      rw [upsertPlayer_eq_setPos n t pos db q hfind]
      exact WF_setPos n t pos db h
  | none =>
      rw [upsertPlayer_eq_append n t pos db hfind]
      exact WF_appendPlayer n t pos db h (List.find?_eq_none.1 hfind)

theorem WF_setPts (pid gid : Nat) (pts : ℚ) (db : DB) (h : WF db) :
    WF (setPts pid gid pts db) := by
  obtain ⟨h1, h2, h3, h4, h5⟩ := h
  refine ⟨h1, h2, h3, h4, ?_⟩
  unfold DB.skeys
  rw [setPts_stats,
    map_map_absorb db.stats (fun s => (s.player_id, s.game_id)) _
      (fun x => by split <;> rfl)]
  exact h5

theorem WF_appendStat (pid gid : Nat) (pts : ℚ) (db : DB) (h : WF db)
    (hno : ∀ x ∈ db.stats, ¬ sKey pid gid x = true) :
    WF { db with stats := db.stats ++
          [{ player_id := pid, game_id := gid, fantasy_points := pts }] } := by
  obtain ⟨h1, h2, h3, h4, h5⟩ := h
  refine ⟨h1, h2, h3, h4, ?_⟩
  unfold DB.skeys at h5 ⊢
  simp only [List.map_append, List.map_cons, List.map_nil]
  refine List.Nodup.append h5 (List.nodup_singleton _) ?_
  intro a ha ha2
  rw [List.mem_singleton] at ha2
  subst ha2
  obtain ⟨w, hw, hkey⟩ := List.mem_map.1 ha
  apply hno w hw
  rw [sKey_true_iff]
  exact ⟨congrArg Prod.fst hkey, congrArg Prod.snd hkey⟩

theorem WF_upsertStat (pid gid : Nat) (pts : ℚ) (db : DB) (h : WF db) :
    WF (upsertStat pid gid pts db) := by
  cases hfind : db.stats.find? (sKey pid gid) with
  | some q =>
      rw [upsertStat_eq_setPts pid gid pts db q hfind]
      exact WF_setPts pid gid pts db h
  | none =>
      rw [upsertStat_eq_append pid gid pts db hfind]
      exact WF_appendStat pid gid pts db h (List.find?_eq_none.1 hfind)

theorem WF_processPlayer (gid : Nat) (db : DB) (p : Player) (h : WF db) :
    WF (processPlayer gid db p) :=
  WF_upsertStat _ gid _ _ (WF_upsertPlayer p.name p.team p.position db h)

theorem WF_runOk (gid : Nat) :
    ∀ (ps : List Player) (db : DB), WF db → WF (runOk gid db ps) := by
  intro ps
  induction ps with
  | nil => intro db h; exact h
  | cons p rest ih =>
      intro db h
      rw [runOk_cons]
      exact ih _ (WF_processPlayer gid db p h)

theorem upsertGame_eq_setDate (w y today : Int) (db : DB) (g : GameRow)
    (hfind : db.games.find? (gKey w y) = some g) :
    upsertGame w y today db = (g.id, { db with games := db.games.map (fun q =>
      if gKey w y q then { q with game_date := today } else q) }) := by
  unfold upsertGame
  rw [hfind]

theorem upsertGame_eq_append (w y today : Int) (db : DB)
    (hfind : db.games.find? (gKey w y) = none) :
    upsertGame w y today db = (db.nextGameId,
      { db with
          games := db.games ++
            [{ id := db.nextGameId, week := w, year := y, game_date := today }],
          nextGameId := db.nextGameId + 1 }) := by
  unfold upsertGame
  rw [hfind]

theorem WF_upsertGame (w y today : Int) (db : DB) (h : WF db) :
    WF (upsertGame w y today db).2 := by
  obtain ⟨h1, h2, h3, h4, h5⟩ := h
  cases hfind : db.games.find? (gKey w y) with
  | some g =>
      rw [upsertGame_eq_setDate w y today db g hfind]
      refine ⟨h1, h2, h3, ?_, h5⟩
      unfold DB.gkeys
      simp only
      rw [map_map_absorb db.games (fun q => (q.week, q.year)) _
        (fun x => by split <;> rfl)]
      exact h4
  | none =>
      rw [upsertGame_eq_append w y today db hfind]
      have hno := List.find?_eq_none.1 hfind
      refine ⟨h1, h2, h3, ?_, h5⟩
      unfold DB.gkeys at h4 ⊢
      simp only [List.map_append, List.map_cons, List.map_nil]
      refine List.Nodup.append h4 (List.nodup_singleton _) ?_
      intro a ha ha2
      rw [List.mem_singleton] at ha2
      subst ha2
      obtain ⟨q, hq, hkey⟩ := List.mem_map.1 ha
      apply hno q hq
      rw [gKey_true_iff]
      exact ⟨congrArg Prod.fst hkey, congrArg Prod.snd hkey⟩

/-- Writing a position twice under the same key keeps the last
write. -/
theorem setPos_setPos_absorb (n t x u : String) (db : DB) :
    setPos n t u (setPos n t x db) = setPos n t u db := by
  have h : (db.players.map (fun v => if pKey n t v then { v with position := x } else v)).map
        (fun v => if pKey n t v then { v with position := u } else v)
      = db.players.map (fun v => if pKey n t v then { v with position := u } else v) := by
    apply map_map_absorb
    intro w
    by_cases hw : pKey n t w = true
    · have h2 : pKey n t { w with position := x } = true := hw
      simp only [if_pos hw, if_pos h2]
    · simp only [if_neg hw]
  exact congrArg (fun pl => DB.mk pl db.games db.stats db.nextPlayerId db.nextGameId) h

/-- Writing points twice under the same stat key keeps the last
write. -/
theorem setPts_setPts_absorb (pid gid : Nat) (x u : ℚ) (db : DB) :
    setPts pid gid u (setPts pid gid x db) = setPts pid gid u db := by
  have h : (db.stats.map (fun v => if sKey pid gid v then { v with fantasy_points := x } else v)).map
        (fun v => if sKey pid gid v then { v with fantasy_points := u } else v)
      = db.stats.map (fun v => if sKey pid gid v then { v with fantasy_points := u } else v) := by
    apply map_map_absorb
    intro w
    by_cases hw : sKey pid gid w = true
    · have h2 : sKey pid gid { w with fantasy_points := x } = true := hw
      simp only [if_pos hw, if_pos h2]
    · simp only [if_neg hw]
  exact congrArg (fun st => DB.mk db.players db.games st db.nextPlayerId db.nextGameId) h

/-- Position writes under different keys commute. -/
theorem setPos_setPos_comm (a b u n t x : String) (db : DB)
    (hne : ¬(a = n ∧ b = t)) :
    setPos a b u (setPos n t x db) = setPos n t x (setPos a b u db) := by
  have h : (db.players.map (fun v => if pKey n t v then { v with position := x } else v)).map
        (fun v => if pKey a b v then { v with position := u } else v)
      = (db.players.map (fun v => if pKey a b v then { v with position := u } else v)).map
        (fun v => if pKey n t v then { v with position := x } else v) := by
    rw [List.map_map, List.map_map]
    apply List.map_congr_left
    intro w _
    simp only [Function.comp_apply]
    have hnot : ¬ (pKey n t w = true ∧ pKey a b w = true) := by
      rintro ⟨h1, h2⟩
      obtain ⟨hn1, ht1⟩ := (pKey_true_iff n t w).1 h1
      obtain ⟨hn2, ht2⟩ := (pKey_true_iff a b w).1 h2
      exact hne ⟨by rw [← hn2, hn1], by rw [← ht2, ht1]⟩
    by_cases h1 : pKey n t w = true
    · have h2 : ¬ pKey a b w = true := fun hc => hnot ⟨h1, hc⟩
      have h2x : ¬ pKey a b { w with position := x } = true := h2
      simp only [if_pos h1, if_neg h2, if_neg h2x]
    · by_cases h2 : pKey a b w = true
      · have h1u : ¬ pKey n t { w with position := u } = true := h1
        simp only [if_neg h1, if_pos h2, if_neg h1u]
      · simp only [if_neg h1, if_neg h2]
  exact congrArg (fun pl => DB.mk pl db.games db.stats db.nextPlayerId db.nextGameId) h

/-- Point writes under different stat keys commute. -/
theorem setPts_setPts_comm (a b : Nat) (u : ℚ) (pid gid : Nat) (x : ℚ) (db : DB)
    (hne : ¬(a = pid ∧ b = gid)) :
    setPts a b u (setPts pid gid x db) = setPts pid gid x (setPts a b u db) := by
  have h : (db.stats.map (fun v => if sKey pid gid v then { v with fantasy_points := x } else v)).map
        (fun v => if sKey a b v then { v with fantasy_points := u } else v)
      = (db.stats.map (fun v => if sKey a b v then { v with fantasy_points := u } else v)).map
        (fun v => if sKey pid gid v then { v with fantasy_points := x } else v) := by
    rw [List.map_map, List.map_map]
    apply List.map_congr_left
    intro w _
    simp only [Function.comp_apply]
    have hnot : ¬ (sKey pid gid w = true ∧ sKey a b w = true) := by
      rintro ⟨h1, h2⟩
      obtain ⟨hn1, ht1⟩ := (sKey_true_iff pid gid w).1 h1
      obtain ⟨hn2, ht2⟩ := (sKey_true_iff a b w).1 h2
      exact hne ⟨by rw [← hn2, hn1], by rw [← ht2, ht1]⟩
    by_cases h1 : sKey pid gid w = true
    · have h2 : ¬ sKey a b w = true := fun hc => hnot ⟨h1, hc⟩
      have h2x : ¬ sKey a b { w with fantasy_points := x } = true := h2
      simp only [if_pos h1, if_neg h2, if_neg h2x]
    · by_cases h2 : sKey a b w = true
      · have h1u : ¬ sKey pid gid { w with fantasy_points := u } = true := h1
        simp only [if_neg h1, if_pos h2, if_neg h1u]
      · simp only [if_neg h1, if_neg h2]
  exact congrArg (fun st => DB.mk db.players db.games st db.nextPlayerId db.nextGameId) h

/-- Position writes and point writes touch different tables, so they
commute. -/
theorem setPos_setPts_comm (n t x : String) (pid gid : Nat) (y : ℚ) (db : DB) :
    setPos n t x (setPts pid gid y db) = setPts pid gid y (setPos n t x db) := rfl

/-- `upsertPlayer` ignores the stats table, so it commutes with a
point write. -/
theorem upsertPlayer_comm_setPts (a b c : String) (pid gid : Nat) (y : ℚ) (db : DB) :
    upsertPlayer a b c (setPts pid gid y db)
      = ((upsertPlayer a b c db).1, setPts pid gid y (upsertPlayer a b c db).2) := by
  cases hfind : db.players.find? (pKey a b) with
  | some r =>
      have hfind2 : (setPts pid gid y db).players.find? (pKey a b) = some r := hfind
      rw [upsertPlayer_eq_setPos a b c (setPts pid gid y db) r hfind2,
        upsertPlayer_eq_setPos a b c db r hfind]
      rfl
  | none =>
      have hfind2 : (setPts pid gid y db).players.find? (pKey a b) = none := hfind
      rw [upsertPlayer_eq_append a b c (setPts pid gid y db) hfind2,
        upsertPlayer_eq_append a b c db hfind]
      rfl

/-- `upsertPlayer` under one key commutes with a position write under
a different key. -/
theorem upsertPlayer_comm_setPos (a b c : String) (n t x : String) (db : DB)
    (hne : ¬(a = n ∧ b = t)) :
    upsertPlayer a b c (setPos n t x db)
      = ((upsertPlayer a b c db).1, setPos n t x (upsertPlayer a b c db).2) := by
  have hinv : ∀ r, pKey a b (if pKey n t r then { r with position := x } else r) = pKey a b r :=
    fun r => pKey_setPos_inv a b n t x r
  cases hfind : db.players.find? (pKey a b) with
  | some r =>
      have hfind2 : (setPos n t x db).players.find? (pKey a b)
          = some (if pKey n t r then { r with position := x } else r) := by
        rw [setPos_players, find?_map_pred _ _ _ hinv, hfind]
        rfl
      rw [upsertPlayer_eq_setPos a b c (setPos n t x db) _ hfind2,
        upsertPlayer_eq_setPos a b c db r hfind, Prod.mk.injEq]
      exact ⟨id_setPos_inv n t x r, setPos_setPos_comm a b c n t x db hne⟩
  | none =>
      have hfind2 : (setPos n t x db).players.find? (pKey a b) = none := by
        rw [setPos_players, find?_map_pred _ _ _ hinv, hfind]
        rfl
      rw [upsertPlayer_eq_append a b c (setPos n t x db) hfind2,
        upsertPlayer_eq_append a b c db hfind, Prod.mk.injEq]
      refine ⟨rfl, ?_⟩
      have hnew : (if pKey n t (PlayerRow.mk db.nextPlayerId a b c)
            then PlayerRow.mk db.nextPlayerId a b x
            else PlayerRow.mk db.nextPlayerId a b c)
          = PlayerRow.mk db.nextPlayerId a b c := by
        apply if_neg
        intro hc
        obtain ⟨h1, h2⟩ := (pKey_true_iff n t _).1 hc
        exact hne ⟨h1, h2⟩
      have hlist : (db.players.map (fun q =>
            if pKey n t q then { q with position := x } else q))
            ++ [PlayerRow.mk db.nextPlayerId a b c]
          = (db.players ++ [PlayerRow.mk db.nextPlayerId a b c]).map (fun q =>
            if pKey n t q then { q with position := x } else q) := by
        rw [List.map_append]
        simp only [List.map_cons, List.map_nil]
        rw [hnew]
      exact congrArg (fun pl => DB.mk pl db.games db.stats (db.nextPlayerId + 1)
        db.nextGameId) hlist

/-- `upsertStat` ignores the players table, so it commutes with a
position write. -/
theorem upsertStat_comm_setPos (p g : Nat) (c : ℚ) (n t x : String) (db : DB) :
    upsertStat p g c (setPos n t x db) = setPos n t x (upsertStat p g c db) := by
  cases hfind : db.stats.find? (sKey p g) with
  | some s =>
      have hfind2 : (setPos n t x db).stats.find? (sKey p g) = some s := hfind
      rw [upsertStat_eq_setPts p g c _ s hfind2, upsertStat_eq_setPts p g c db s hfind]
      rfl
  | none =>
      have hfind2 : (setPos n t x db).stats.find? (sKey p g) = none := hfind
      rw [upsertStat_eq_append p g c _ hfind2, upsertStat_eq_append p g c db hfind]
      rfl

/-- `upsertStat` under one key commutes with a point write under a
different key. -/
theorem upsertStat_comm_setPts (a b : Nat) (c : ℚ) (pid gid : Nat) (y : ℚ) (db : DB)
    (hne : ¬(a = pid ∧ b = gid)) :
    upsertStat a b c (setPts pid gid y db) = setPts pid gid y (upsertStat a b c db) := by
  have hinv : ∀ s, sKey a b (if sKey pid gid s then { s with fantasy_points := y } else s)
      = sKey a b s := fun s => sKey_setPts_inv a b pid gid y s
  cases hfind : db.stats.find? (sKey a b) with
  | some s =>
      have hfind2 : (setPts pid gid y db).stats.find? (sKey a b)
          = some (if sKey pid gid s then { s with fantasy_points := y } else s) := by
        rw [setPts_stats, find?_map_pred _ _ _ hinv, hfind]
        rfl
      rw [upsertStat_eq_setPts a b c (setPts pid gid y db) _ hfind2,
        upsertStat_eq_setPts a b c db s hfind]
      exact setPts_setPts_comm a b c pid gid y db hne
  | none =>
      have hfind2 : (setPts pid gid y db).stats.find? (sKey a b) = none := by
        rw [setPts_stats, find?_map_pred _ _ _ hinv, hfind]
        rfl
      rw [upsertStat_eq_append a b c (setPts pid gid y db) hfind2,
        upsertStat_eq_append a b c db hfind]
      have hnew : (if sKey pid gid (StatRow.mk a b c)
            then StatRow.mk a b y
            else StatRow.mk a b c)
          = StatRow.mk a b c := by
        apply if_neg
        intro hc
        obtain ⟨h1, h2⟩ := (sKey_true_iff pid gid _).1 hc
        exact hne ⟨h1, h2⟩
      have hlist : (db.stats.map (fun q =>
            if sKey pid gid q then { q with fantasy_points := y } else q))
            ++ [StatRow.mk a b c]
          = (db.stats ++ [StatRow.mk a b c]).map (fun q =>
            if sKey pid gid q then { q with fantasy_points := y } else q) := by
        rw [List.map_append]
        simp only [List.map_cons, List.map_nil]
        rw [hnew]
      exact congrArg (fun st => DB.mk db.players db.games st db.nextPlayerId
        db.nextGameId) hlist

/-- The id returned by an upsert under a different key is never the id
`pid` stored under key (n, t). -/
theorem upsertPlayer_fst_ne (qn qt qp : String) (n t : String) (pid : Nat) (db : DB)
    (hWF : WF db) (hpid : hasPlayerId n t pid db) (hne : ¬(qn = n ∧ qt = t)) :
    (upsertPlayer qn qt qp db).1 ≠ pid := by
  obtain ⟨h1, h2, h3, h4, h5⟩ := hWF
  obtain ⟨rnt, hfnt, hidnt⟩ := hpid
  have hmemnt := List.mem_of_find?_eq_some hfnt
  have hknt := List.find?_some hfnt
  cases hfind : db.players.find? (pKey qn qt) with
  | some rq =>
      rw [upsertPlayer_eq_setPos qn qt qp db rq hfind]
      intro hc
      have hmemq := List.mem_of_find?_eq_some hfind
      have hkq := List.find?_some hfind
      have hc2 : rq.id = pid := hc
      have hrr : rq = rnt := by
        apply List.inj_on_of_nodup_map h2 hmemq hmemnt
        show rq.id = rnt.id
        rw [hc2, hidnt]
      obtain ⟨hqn1, hqt1⟩ := (pKey_true_iff qn qt rq).1 hkq
      obtain ⟨hn1, ht1⟩ := (pKey_true_iff n t rnt).1 hknt
      rw [hrr] at hqn1 hqt1
      exact hne ⟨by rw [← hqn1, hn1], by rw [← hqt1, ht1]⟩
  | none =>
      rw [upsertPlayer_eq_append qn qt qp db hfind]
      intro hc
      have hc2 : db.nextPlayerId = pid := hc
      have := h3 rnt hmemnt
      rw [hidnt] at this
      omega

/-- Upserting under a key already present absorbs a previous position
write under the same key. -/
theorem upsertPlayer_absorb_setPos (n t c x : String) (db : DB) (r : PlayerRow)
    (hfind : db.players.find? (pKey n t) = some r) :
    upsertPlayer n t c (setPos n t x db) = upsertPlayer n t c db := by
  have hfind2 : (setPos n t x db).players.find? (pKey n t)
      = some (if pKey n t r then { r with position := x } else r) := by
    rw [setPos_players, find?_map_pred _ _ _ (pKey_setPos_inv n t n t x), hfind]
    rfl
  rw [upsertPlayer_eq_setPos n t c _ _ hfind2, upsertPlayer_eq_setPos n t c db r hfind,
    Prod.mk.injEq]
  exact ⟨id_setPos_inv n t x r, setPos_setPos_absorb n t x c db⟩

/-- Upserting a stat already present absorbs a previous point write
under the same key. -/
theorem upsertStat_absorb_setPts (pid gid : Nat) (c y : ℚ) (db : DB) (s : StatRow)
    (hfind : db.stats.find? (sKey pid gid) = some s) :
    upsertStat pid gid c (setPts pid gid y db) = upsertStat pid gid c db := by
  have hfind2 : (setPts pid gid y db).stats.find? (sKey pid gid)
      = some (if sKey pid gid s then { s with fantasy_points := y } else s) := by
    rw [setPts_stats, find?_map_pred _ _ _ (sKey_setPts_inv pid gid pid gid y), hfind]
    rfl
  rw [upsertStat_eq_setPts pid gid c _ _ hfind2, upsertStat_eq_setPts pid gid c db s hfind]
  exact setPts_setPts_absorb pid gid y c db

/-- A loop iteration for a key other than (n, t) commutes with the
combined position/points write under (n, t). -/
theorem processPlayer_comm (gid : Nat) (q : Player) (n t x : String) (pid : Nat)
    (y : ℚ) (db : DB) (hWF : WF db) (hpid : hasPlayerId n t pid db)
    (hne : ¬(q.name = n ∧ q.team = t)) :
    processPlayer gid (setPts pid gid y (setPos n t x db)) q
      = setPts pid gid y (setPos n t x (processPlayer gid db q)) := by
  unfold processPlayer
  have hstep1 : upsertPlayer q.name q.team q.position (setPts pid gid y (setPos n t x db))
      = ((upsertPlayer q.name q.team q.position db).1,
         setPts pid gid y (setPos n t x (upsertPlayer q.name q.team q.position db).2)) := by
    rw [upsertPlayer_comm_setPts q.name q.team q.position pid gid y (setPos n t x db),
      upsertPlayer_comm_setPos q.name q.team q.position n t x db hne]
  rw [hstep1]
  show upsertStat (upsertPlayer q.name q.team q.position db).1 gid q.fantasy_points
      (setPts pid gid y (setPos n t x (upsertPlayer q.name q.team q.position db).2)) = _
  have hne2 : ¬((upsertPlayer q.name q.team q.position db).1 = pid ∧ gid = gid) :=
    fun hc => upsertPlayer_fst_ne q.name q.team q.position n t pid db hWF hpid hne hc.1
  rw [upsertStat_comm_setPts _ _ _ pid gid y _ hne2, upsertStat_comm_setPos]

/-- A loop iteration for key (n, t) itself absorbs the combined
position/points write under (n, t). -/
theorem processPlayer_absorb (gid : Nat) (q : Player) (x : String) (pid : Nat)
    (y : ℚ) (db : DB) (hpid : hasPlayerId q.name q.team pid db)
    (hstat : hasStatKey pid gid db) :
    processPlayer gid (setPts pid gid y (setPos q.name q.team x db)) q
      = processPlayer gid db q := by
  obtain ⟨r, hfind, hid⟩ := hpid
  unfold processPlayer
  have hstep1 : upsertPlayer q.name q.team q.position (setPts pid gid y (setPos q.name q.team x db))
      = ((upsertPlayer q.name q.team q.position db).1,
         setPts pid gid y (upsertPlayer q.name q.team q.position db).2) := by
    rw [upsertPlayer_comm_setPts q.name q.team q.position pid gid y (setPos q.name q.team x db),
      upsertPlayer_absorb_setPos q.name q.team q.position x db r hfind]
  rw [hstep1]
  show upsertStat (upsertPlayer q.name q.team q.position db).1 gid q.fantasy_points
      (setPts pid gid y (upsertPlayer q.name q.team q.position db).2)
    = upsertStat (upsertPlayer q.name q.team q.position db).1 gid q.fantasy_points
      (upsertPlayer q.name q.team q.position db).2
  have hfst : (upsertPlayer q.name q.team q.position db).1 = pid := by
    rw [upsertPlayer_eq_setPos q.name q.team q.position db r hfind]
    exact hid
  rw [hfst]
  have hstat2 : (upsertPlayer q.name q.team q.position db).2.stats.find? (sKey pid gid)
      = some hstat.choose := by
    rw [upsertPlayer_stats]
    exact hstat.choose_spec
  exact upsertStat_absorb_setPts pid gid q.fantasy_points y _ _ hstat2

/-- A loop iteration whose record's key, position and points are
already stored exactly is a no-op. -/
theorem processPlayer_noop (gid : Nat) (p : Player) (pid : Nat) (db : DB)
    (hWF : WF db)
    (hstate : playerStateAt p.name p.team pid p.position gid p.fantasy_points db) :
    processPlayer gid db p = db := by
  obtain ⟨⟨r, hfind, hid, hpos⟩, ⟨s, hsfind, hspts⟩⟩ := hstate
  obtain ⟨h1, h2, h3, h4, h5⟩ := hWF
  unfold processPlayer
  have e1 : upsertPlayer p.name p.team p.position db = (pid, db) := by
    rw [upsertPlayer_eq_setPos p.name p.team p.position db r hfind, Prod.mk.injEq]
    refine ⟨hid, ?_⟩
    rw [← hpos]
    exact setPos_eq_self p.name p.team db h1 r hfind
  rw [e1]
  show upsertStat pid gid p.fantasy_points db = db
  rw [upsertStat_eq_setPts pid gid _ db s hsfind, ← hspts]
  exact setPts_eq_self pid gid db h5 s hsfind

/-- Exact stored state under key (n, t) is untouched by iterations for
other keys. -/
theorem playerStateAt_frame_step (gid : Nat) (q : Player) (n t : String) (pid : Nat)
    (pos : String) (pts : ℚ) (db : DB) (hWF : WF db)
    (hne : ¬(q.name = n ∧ q.team = t))
    (h : playerStateAt n t pid pos gid pts db) :
    playerStateAt n t pid pos gid pts (processPlayer gid db q) := by
  obtain ⟨⟨r, hfind, hid, hpos⟩, ⟨s, hsfind, hspts⟩⟩ := h
  have hkr := List.find?_some hfind
  obtain ⟨hrn, hrt⟩ := (pKey_true_iff n t r).1 hkr
  have hr_notq : pKey q.name q.team r = false := by
    cases hb : pKey q.name q.team r with
    | false => rfl
    | true =>
        obtain ⟨e1, e2⟩ := (pKey_true_iff q.name q.team r).1 hb
        exact absurd ⟨by rw [← e1, hrn], by rw [← e2, hrt]⟩ hne
  have hpid : hasPlayerId n t pid db := ⟨r, hfind, hid⟩
  have hfst_ne : (upsertPlayer q.name q.team q.position db).1 ≠ pid :=
    upsertPlayer_fst_ne q.name q.team q.position n t pid db
      ⟨(by obtain ⟨a,b,c,d,e⟩ := hWF; exact a), (by obtain ⟨a,b,c,d,e⟩ := hWF; exact b),
       (by obtain ⟨a,b,c,d,e⟩ := hWF; exact c), (by obtain ⟨a,b,c,d,e⟩ := hWF; exact d),
       (by obtain ⟨a,b,c,d,e⟩ := hWF; exact e)⟩ hpid hne
  constructor
  · -- the (n, t) player row survives, value included
    have hpp : (processPlayer gid db q).players
        = (upsertPlayer q.name q.team q.position db).2.players := by
      unfold processPlayer
      rw [show ∀ (d : DB) (a b : Nat) (z : ℚ), (upsertStat a b z d).players = d.players from
        fun d a b z => by unfold upsertStat; cases d.stats.find? (sKey a b) <;> rfl]
    rw [hpp]
    cases hfq : db.players.find? (pKey q.name q.team) with
    | some rq =>
        rw [upsertPlayer_eq_setPos q.name q.team q.position db rq hfq]
        refine ⟨r, ?_, hid, hpos⟩
        show (setPos q.name q.team q.position db).players.find? (pKey n t) = some r
        rw [setPos_players, find?_map_pred _ _ _ (pKey_setPos_inv n t q.name q.team q.position),
          hfind]
        show some (if pKey q.name q.team r then { r with position := q.position } else r)
          = some r
        rw [if_neg (by rw [hr_notq]; exact Bool.false_ne_true)]
    | none =>
        rw [upsertPlayer_eq_append q.name q.team q.position db hfq]
        exact ⟨r, find?_append_some _ _ _ r hfind, hid, hpos⟩
  · -- the (pid, gid) stat row survives, value included
    unfold processPlayer
    have hs1 : (upsertPlayer q.name q.team q.position db).2.stats.find? (sKey pid gid)
        = some s := by
      rw [upsertPlayer_stats]
      exact hsfind
    have hs_notq : sKey (upsertPlayer q.name q.team q.position db).1 gid s = false := by
      cases hb : sKey (upsertPlayer q.name q.team q.position db).1 gid s with
      | false => rfl
      | true =>
          obtain ⟨e1, e2⟩ := (sKey_true_iff _ _ s).1 hb
          obtain ⟨e3, e4⟩ := (sKey_true_iff pid gid s).1 (List.find?_some hsfind)
          exact absurd (by rw [← e1, e3]) hfst_ne
    cases hfq : (upsertPlayer q.name q.team q.position db).2.stats.find?
        (sKey (upsertPlayer q.name q.team q.position db).1 gid) with
    | some sq =>
        rw [upsertStat_eq_setPts _ _ _ _ sq hfq]
        refine ⟨s, ?_, hspts⟩
        rw [setPts_stats, find?_map_pred _ _ _
          (sKey_setPts_inv pid gid _ gid q.fantasy_points), hs1]
        show some (if sKey (upsertPlayer q.name q.team q.position db).1 gid s
            then { s with fantasy_points := q.fantasy_points } else s) = some s
        rw [if_neg (by rw [hs_notq]; exact Bool.false_ne_true)]
    | none =>
        rw [upsertStat_eq_append _ _ _ _ hfq]
        exact ⟨s, find?_append_some _ _ _ s hs1, hspts⟩

theorem hasPlayerId_runOk (gid : Nat) (n t : String) (pid : Nat) :
    ∀ (ps : List Player) (db : DB), hasPlayerId n t pid db →
      hasPlayerId n t pid (runOk gid db ps) := by
  intro ps
  induction ps with
  | nil => intro db h; exact h
  | cons q rest ih =>
      intro db h
      rw [runOk_cons]
      exact ih _ (hasPlayerId_processPlayer n t pid gid q db h)

theorem hasStatKey_runOk (gid : Nat) (pid : Nat) :
    ∀ (ps : List Player) (db : DB), hasStatKey pid gid db →
      hasStatKey pid gid (runOk gid db ps) := by
  intro ps
  induction ps with
  | nil => intro db h; exact h
  | cons q rest ih =>
      intro db h
      rw [runOk_cons]
      exact ih _ (hasStatKey_processPlayer pid gid gid q db h)

theorem playerStateAt_runOk_frame (gid : Nat) (n t : String) (pid : Nat)
    (pos : String) (pts : ℚ) :
    ∀ (ps : List Player) (db : DB), WF db → ¬containsKey n t ps →
      playerStateAt n t pid pos gid pts db →
      playerStateAt n t pid pos gid pts (runOk gid db ps) := by
  intro ps
  induction ps with
  | nil => intro db _ _ h; exact h
  | cons q rest ih =>
      intro db hWF hnc h
      have hne : ¬(q.name = n ∧ q.team = t) := by
        intro hc
        exact hnc ⟨q, List.mem_cons_self q rest, hc.1, hc.2⟩
      have hnc' : ¬containsKey n t rest := by
        intro ⟨p, hp, hk⟩
        exact hnc ⟨p, List.mem_cons_of_mem q hp, hk⟩
      rw [runOk_cons]
      exact ih _ (WF_processPlayer gid db q hWF) hnc'
        (playerStateAt_frame_step gid q n t pid pos pts db hWF hne h)

/-- A combined position/points write under a key that the rest of the
batch will overwrite anyway is absorbed by the loop. -/
theorem runOk_absorb (gid : Nat) (n t x : String) (pid : Nat) (y : ℚ) :
    ∀ (ps : List Player) (db : DB), WF db → hasPlayerId n t pid db →
      hasStatKey pid gid db → containsKey n t ps →
      runOk gid (setPts pid gid y (setPos n t x db)) ps = runOk gid db ps := by
  intro ps
  induction ps with
  | nil =>
      intro db _ _ _ hc
      obtain ⟨p, hp, _⟩ := hc
      exact absurd hp (List.not_mem_nil p)
  | cons q rest ih =>
      intro db hWF hpid hstat hc
      rw [runOk_cons, runOk_cons]
      by_cases hq : q.name = n ∧ q.team = t
      · obtain ⟨e1, e2⟩ := hq
        subst e1
        subst e2
        rw [processPlayer_absorb gid q x pid y db hpid hstat]
      · rw [processPlayer_comm gid q n t x pid y db hWF hpid hq]
        have hc' : containsKey n t rest := by
          obtain ⟨p, hp, hk⟩ := hc
          rcases List.mem_cons.1 hp with rfl | hp'
          · exact absurd ⟨hk.1, hk.2⟩ hq
          · exact ⟨p, hp', hk⟩
        exact ih _ (WF_processPlayer gid db q hWF)
          (hasPlayerId_processPlayer n t pid gid q db hpid)
          (hasStatKey_processPlayer pid gid gid q db hstat) hc'

/-- A loop iteration on a state where the key already resolves and the
stat row exists is exactly the combined position/points write. -/
theorem processPlayer_eq_mod (gid : Nat) (p : Player) (pid : Nat) (db : DB)
    (hpid : hasPlayerId p.name p.team pid db) (hstat : hasStatKey pid gid db) :
    processPlayer gid db p
      = setPts pid gid p.fantasy_points (setPos p.name p.team p.position db) := by
  obtain ⟨r, hfind, hid⟩ := hpid
  obtain ⟨s, hsfind⟩ := hstat
  unfold processPlayer
  rw [upsertPlayer_eq_setPos p.name p.team p.position db r hfind]
  show upsertStat r.id gid p.fantasy_points (setPos p.name p.team p.position db) = _
  rw [hid]
  have hsfind2 : (setPos p.name p.team p.position db).stats.find? (sKey pid gid)
      = some s := hsfind
  rw [upsertStat_eq_setPts pid gid p.fantasy_points _ s hsfind2]

/-- Re-running the whole player loop on its own output changes
nothing. -/
theorem runOk_idem (gid : Nat) :
    ∀ (ps : List Player) (db : DB), WF db →
      runOk gid (runOk gid db ps) ps = runOk gid db ps := by
  intro ps
  induction ps with
  | nil => intro db _; rfl
  | cons p rest ih =>
      intro db hWF
      have hWF1 : WF (processPlayer gid db p) := WF_processPlayer gid db p hWF
      have hest := processPlayer_establishes gid db p
      rw [runOk_cons, runOk_cons]
      by_cases hck : containsKey p.name p.team rest
      · have hpidv : hasPlayerId p.name p.team
            (upsertPlayer p.name p.team p.position db).1
            (runOk gid (processPlayer gid db p) rest) := by
          apply hasPlayerId_runOk
          obtain ⟨r, hf, hid, _⟩ := hest.1
          exact ⟨r, hf, hid⟩
        have hstatv : hasStatKey (upsertPlayer p.name p.team p.position db).1 gid
            (runOk gid (processPlayer gid db p) rest) := by
          apply hasStatKey_runOk
          obtain ⟨s, hf, _⟩ := hest.2
          exact ⟨s, hf⟩
        rw [processPlayer_eq_mod gid p _ _ hpidv hstatv,
          runOk_absorb gid p.name p.team p.position _ p.fantasy_points rest _
            (WF_runOk gid rest _ hWF1) hpidv hstatv hck]
        exact ih _ hWF1
      · have hstv := playerStateAt_runOk_frame gid p.name p.team
          (upsertPlayer p.name p.team p.position db).1 p.position p.fantasy_points rest _
          hWF1 hck hest
        rw [processPlayer_noop gid p _ _ (WF_runOk gid rest _ hWF1) hstv]
        exact ih _ hWF1

/-- Re-upserting a game row whose date is already today changes
nothing and returns the stored id. -/
theorem upsertGame_noop (w y today : Int) (db : DB) (hnd : db.gkeys.Nodup)
    (g : GameRow) (hfind : db.games.find? (gKey w y) = some g)
    (hdate : g.game_date = today) :
    upsertGame w y today db = (g.id, db) := by
  unfold upsertGame
  rw [hfind]
  have hmap : db.games.map (fun q =>
      if gKey w y q then { q with game_date := today } else q) = db.games := by
    apply list_map_eq_self
    intro q hq
    by_cases hkq : gKey w y q
    · rw [if_pos hkq, game_match_unique w y db hnd g hfind q hq hkq, ← hdate]
    · rw [if_neg hkq]
  rw [hmap]


/-- The failure-free loop counts every record and evolves the database
exactly as `runOk`. -/
theorem runPlayersOk_eq (gid : Nat) :
    ∀ (ps : List Player) (i : Nat) (db : DB),
      runPlayers noFail gid i db ps = (ps.length, runOk gid db ps) := by
  intro ps
  induction ps with
  | nil => intro i db; rfl
  | cons p rest ih =>
      intro i db
      rw [runPlayers_cons_of_false noFail gid i db p rest rfl,
        ih (i+1) (processPlayer gid db p)]
      rfl

/-- After `upsertGame`, the (week, year) key resolves to the returned
id and the stored date is today. -/
theorem upsertGame_resolves (w y today : Int) (db : DB) :
    ∃ g, (upsertGame w y today db).2.games.find? (gKey w y) = some g
      ∧ g.id = (upsertGame w y today db).1 ∧ g.game_date = today := by
  cases hfind : db.games.find? (gKey w y) with
  | some g0 =>
      rw [upsertGame_eq_setDate w y today db g0 hfind]
      have hg0 := List.find?_some hfind
      refine ⟨{ g0 with game_date := today }, ?_, rfl, rfl⟩
      show (db.games.map (fun q =>
          if gKey w y q then { q with game_date := today } else q)).find? (gKey w y)
        = some { g0 with game_date := today }
      rw [find?_map_pred _ _ _ (gKey_setDate_inv w y w y today), hfind]
      show some (if gKey w y g0 then { g0 with game_date := today } else g0) = _
      rw [if_pos hg0]
  | none =>
      rw [upsertGame_eq_append w y today db hfind]
      refine ⟨GameRow.mk db.nextGameId w y today, ?_, rfl, rfl⟩
      show (db.games ++ [GameRow.mk db.nextGameId w y today]).find? (gKey w y) = _
      rw [List.find?_append, hfind]
      simp [List.find?, gKey]

/-- C3 core: running the persistence step twice with the same (week,
year, batch) ends in exactly the state one run produces — same rows,
same counts, same fantasy-point values. -/
theorem c3_persist_idempotent (week year today : Int) (ps : List Player) (db : DB)
    (hWF : WF db) :
    persistOk week year today ps (persistOk week year today ps db).2
      = persistOk week year today ps db := by
  have hWF1 : WF (upsertGame week year today db).2 := WF_upsertGame week year today db hWF
  obtain ⟨g, hg, hgid, hgdate⟩ := upsertGame_resolves week year today db
  have h1 : persistOk week year today ps db
      = (ps.length, runOk (upsertGame week year today db).1
          (upsertGame week year today db).2 ps) :=
    runPlayersOk_eq (upsertGame week year today db).1 ps 0 (upsertGame week year today db).2
  have hWFd1 : WF (runOk (upsertGame week year today db).1
      (upsertGame week year today db).2 ps) := WF_runOk _ ps _ hWF1
  have hg2 : (runOk (upsertGame week year today db).1
      (upsertGame week year today db).2 ps).games.find? (gKey week year) = some g := by
    rw [runOk_games]
    exact hg
  have hnoop : upsertGame week year today (runOk (upsertGame week year today db).1
      (upsertGame week year today db).2 ps)
      = (g.id, runOk (upsertGame week year today db).1
          (upsertGame week year today db).2 ps) := by
    obtain ⟨w1, w2, w3, w4, w5⟩ := hWFd1
    exact upsertGame_noop week year today _ w4 g hg2 hgdate
  have h2 : persistOk week year today ps (persistOk week year today ps db).2
      = (ps.length, runOk g.id (runOk (upsertGame week year today db).1
          (upsertGame week year today db).2 ps) ps) := by
    have hsnd : (persistOk week year today ps db).2
        = runOk (upsertGame week year today db).1 (upsertGame week year today db).2 ps := by
      rw [h1]
    rw [hsnd]
    unfold persistOk persist
    rw [hnoop]
    exact runPlayersOk_eq g.id ps 0 _
  rw [h2, hgid, runOk_idem _ ps _ hWF1, h1]

/-- The empty database satisfies the schema invariant. -/
theorem WF_empty : WF DB.empty :=
  ⟨List.nodup_nil, List.nodup_nil, fun r hr => absurd hr (List.not_mem_nil r),
   List.nodup_nil, List.nodup_nil⟩

/-- Witness for C3: one concrete batch over the empty database. -/
theorem c3_persist_idempotent_witness :
    persistOk 1 2024 0 [⟨"A", "BUF", "QB", 10⟩]
        (persistOk 1 2024 0 [⟨"A", "BUF", "QB", 10⟩] DB.empty).2
      = persistOk 1 2024 0 [⟨"A", "BUF", "QB", 10⟩] DB.empty :=
  c3_persist_idempotent 1 2024 0 [⟨"A", "BUF", "QB", 10⟩] DB.empty WF_empty


theorem upsertGame_players (w y today : Int) (db : DB) :
    (upsertGame w y today db).2.players = db.players := by
  unfold upsertGame
  cases db.games.find? (gKey w y) <;> rfl

/-- If the tail still has a record with the key, the last position of
the whole batch is the last position of the tail. -/
theorem lastPos_cons_of_contains (n t : String) (p : Player) (rest : List Player)
    (hc : containsKey n t rest) : lastPos n t (p :: rest) = lastPos n t rest := by
  unfold lastPos
  rw [List.reverse_cons, List.find?_append]
  obtain ⟨q, hq, hk1, hk2⟩ := hc
  have hpm : pMatch n t q = true := by simp [pMatch, hk1, hk2]
  cases hfr : rest.reverse.find? (pMatch n t) with
  | some v => rfl
  | none =>
      exact absurd hpm
        (by simpa using List.find?_eq_none.1 hfr q (List.mem_reverse.2 hq))

/-- If the tail has no record with the key, the head's position is the
last one. -/
theorem lastPos_cons_last (n t : String) (p : Player) (rest : List Player)
    (hnc : ¬containsKey n t rest) (h1 : p.name = n) (h2 : p.team = t) :
    lastPos n t (p :: rest) = some p.position := by
  unfold lastPos
  rw [List.reverse_cons, List.find?_append]
  have hnone : rest.reverse.find? (pMatch n t) = none := by
    rw [List.find?_eq_none]
    intro x hx hpx
    obtain ⟨hx1, hx2⟩ : x.name = n ∧ x.team = t := by simpa [pMatch] using hpx
    exact hnc ⟨x, List.mem_reverse.1 hx, hx1, hx2⟩
  rw [hnone]
  have hp : pMatch n t p = true := by simp [pMatch, h1, h2]
  simp [List.find?, hp]

/-- After the loop, a sighted key resolves to a row holding the last
position of the batch. -/
theorem runOk_lastPos (gid : Nat) (n t : String) :
    ∀ (ps : List Player) (db : DB), WF db → containsKey n t ps →
      ∃ r, (runOk gid db ps).players.find? (pKey n t) = some r
        ∧ some r.position = lastPos n t ps := by
  intro ps
  induction ps with
  | nil =>
      intro db _ hc
      obtain ⟨p, hp, _⟩ := hc
      exact absurd hp (List.not_mem_nil p)
  | cons p rest ih =>
      intro db hWF hc
      rw [runOk_cons]
      by_cases hck : containsKey n t rest
      · obtain ⟨r, hr, hrp⟩ := ih (processPlayer gid db p) (WF_processPlayer gid db p hWF) hck
        exact ⟨r, hr, by rw [hrp, lastPos_cons_of_contains n t p rest hck]⟩
      · have hp : p.name = n ∧ p.team = t := by
          obtain ⟨q, hq, hk⟩ := hc
          rcases List.mem_cons.1 hq with rfl | hq'
          · exact hk
          · exact absurd ⟨q, hq', hk⟩ hck
        obtain ⟨e1, e2⟩ := hp
        subst e1
        subst e2
        have hest := processPlayer_establishes gid db p
        have hWF1 := WF_processPlayer gid db p hWF
        have hframe := playerStateAt_runOk_frame gid p.name p.team
          (upsertPlayer p.name p.team p.position db).1 p.position p.fantasy_points rest
          (processPlayer gid db p) hWF1 hck hest
        obtain ⟨⟨r, hf, _, hpos⟩, _⟩ := hframe
        exact ⟨r, hf, by rw [hpos, lastPos_cons_last p.name p.team p rest hck rfl rfl]⟩

/-- With no duplicate keys and the key present, exactly one row
matches it. -/
theorem find?_filter_length_one (n t : String) :
    ∀ (l : List PlayerRow), (l.map (fun r => (r.name, r.team))).Nodup →
      ∀ r, l.find? (pKey n t) = some r → (l.filter (pKey n t)).length = 1 := by
  intro l
  induction l with
  | nil => intro _ r hfind; simp [List.find?] at hfind
  | cons a rest ih =>
      intro hnd r hfind
      rw [List.map_cons] at hnd
      obtain ⟨hnotin, hnd'⟩ := List.nodup_cons.1 hnd
      cases hka : pKey n t a with
      | true =>
          rw [List.filter_cons_of_pos hka]
          have hrest : rest.filter (pKey n t) = [] := by
            rw [List.filter_eq_nil_iff]
            intro x hx hpx
            obtain ⟨e1, e2⟩ := (pKey_true_iff n t x).1 hpx
            obtain ⟨e3, e4⟩ := (pKey_true_iff n t a).1 hka
            apply hnotin
            have hmem : (x.name, x.team) ∈ rest.map (fun r => (r.name, r.team)) :=
              List.mem_map_of_mem _ hx
            rw [e1, e2, ← e3, ← e4] at hmem
            exact hmem
          rw [hrest]
          rfl
      | false =>
          have hfind' : rest.find? (pKey n t) = some r := by
            simpa [List.find?, hka] using hfind
          rw [List.filter_cons_of_neg (by rw [hka]; exact Bool.false_ne_true)]
          exact ih hnd' r hfind'

/-- C7: if both successive runs carry the key (n, t), the row exists
after the first run, and after the second run it is unique and stores
the last position submitted in the second batch. -/
theorem c7_position_overwrite (week year today1 today2 : Int) (n t : String)
    (ps1 ps2 : List Player) (db : DB) (hWF : WF db)
    (hc1 : containsKey n t ps1) (hc2 : containsKey n t ps2) :
    (∃ r1, (persistOk week year today1 ps1 db).2.players.find? (pKey n t) = some r1)
    ∧ ((persistOk week year today2 ps2
          (persistOk week year today1 ps1 db).2).2.players.filter (pKey n t)).length = 1
    ∧ (∃ r, (persistOk week year today2 ps2
          (persistOk week year today1 ps1 db).2).2.players.find? (pKey n t) = some r
        ∧ some r.position = lastPos n t ps2) := by
  have hWFg1 : WF (upsertGame week year today1 db).2 := WF_upsertGame week year today1 db hWF
  have hsnd1 : (persistOk week year today1 ps1 db).2
      = runOk (upsertGame week year today1 db).1 (upsertGame week year today1 db).2 ps1 :=
    congrArg Prod.snd (runPlayersOk_eq (upsertGame week year today1 db).1 ps1 0
      (upsertGame week year today1 db).2)
  have hWF1 : WF (persistOk week year today1 ps1 db).2 := by
    rw [hsnd1]
    exact WF_runOk _ ps1 _ hWFg1
  have hWFg2 : WF (upsertGame week year today2 (persistOk week year today1 ps1 db).2).2 :=
    WF_upsertGame week year today2 _ hWF1
  have hsnd2 : (persistOk week year today2 ps2 (persistOk week year today1 ps1 db).2).2
      = runOk (upsertGame week year today2 (persistOk week year today1 ps1 db).2).1
          (upsertGame week year today2 (persistOk week year today1 ps1 db).2).2 ps2 :=
    congrArg Prod.snd (runPlayersOk_eq
      (upsertGame week year today2 (persistOk week year today1 ps1 db).2).1 ps2 0
      (upsertGame week year today2 (persistOk week year today1 ps1 db).2).2)
  refine ⟨?_, ?_, ?_⟩
  · obtain ⟨r1, hr1, _⟩ := runOk_lastPos (upsertGame week year today1 db).1 n t ps1
      (upsertGame week year today1 db).2 hWFg1 hc1
    exact ⟨r1, by rw [hsnd1]; exact hr1⟩
  · have hWF2 : WF (persistOk week year today2 ps2 (persistOk week year today1 ps1 db).2).2 := by
      rw [hsnd2]
      exact WF_runOk _ ps2 _ hWFg2
    obtain ⟨r, hr, _⟩ := runOk_lastPos
      (upsertGame week year today2 (persistOk week year today1 ps1 db).2).1 n t ps2
      (upsertGame week year today2 (persistOk week year today1 ps1 db).2).2 hWFg2 hc2
    refine find?_filter_length_one n t _ ?_ r ?_
    · exact hWF2.1
    · rw [hsnd2]
      exact hr
  · obtain ⟨r, hr, hlast⟩ := runOk_lastPos
      (upsertGame week year today2 (persistOk week year today1 ps1 db).2).1 n t ps2
      (upsertGame week year today2 (persistOk week year today1 ps1 db).2).2 hWFg2 hc2
    exact ⟨r, by rw [hsnd2]; exact hr, hlast⟩

/-- Witness for C7: the same player arrives as QB, then as RB; one row
remains, holding RB. -/
theorem c7_position_overwrite_witness :
    (∃ r1, (persistOk 1 2024 0 [⟨"A", "BUF", "QB", 10⟩] DB.empty).2.players.find?
        (pKey "A" "BUF") = some r1)
    ∧ ((persistOk 1 2024 0 [⟨"A", "BUF", "RB", 11⟩]
          (persistOk 1 2024 0 [⟨"A", "BUF", "QB", 10⟩] DB.empty).2).2.players.filter
          (pKey "A" "BUF")).length = 1
    ∧ (∃ r, (persistOk 1 2024 0 [⟨"A", "BUF", "RB", 11⟩]
          (persistOk 1 2024 0 [⟨"A", "BUF", "QB", 10⟩] DB.empty).2).2.players.find?
          (pKey "A" "BUF") = some r
        ∧ some r.position = lastPos "A" "BUF" [⟨"A", "BUF", "RB", 11⟩]) :=
  c7_position_overwrite 1 2024 0 0 "A" "BUF" [⟨"A", "BUF", "QB", 10⟩]
    [⟨"A", "BUF", "RB", 11⟩] DB.empty WF_empty
    ⟨⟨"A", "BUF", "QB", 10⟩, List.mem_singleton_self _, rfl, rfl⟩
    ⟨⟨"A", "BUF", "RB", 11⟩, List.mem_singleton_self _, rfl, rfl⟩

/-! ## Entry-point claims -/

/-- C4 counterexample: with the database secret reference absent from
the environment (and the provider key present), `lambda_handler`
raises an uncaught KeyError — `os.environ[..]` runs before the `try:`
block — instead of returning any structured response. -/
theorem c4_missing_secret_uncaught :
    ApiLambda.lambda_handler {} { SPORTSDATA_API_KEY := some "k" } testExt 0 noFail
      DB.empty = Except.error "KeyError: DB_SECRET_ARN" := rfl

/-- C4 (amended): when only the stat-provider access key is absent (or
empty), the handler returns the structured 400 configuration failure,
leaves the database untouched, performs no call on the external world
(the result is identical for every provider/secret-store stub), and
the status differs from the 500 runtime status. -/
theorem c4_missing_api_key_structured (event : Event) (arn : String) (env : Env)
    (ext ext' : Ext) (today today' : Int) (failing failing' : Nat → Bool) (db : DB)
    (harn : env.DB_SECRET_ARN = some arn)
    (hkey : env.SPORTSDATA_API_KEY = none ∨ env.SPORTSDATA_API_KEY = some "") :
    ApiLambda.lambda_handler event env ext today failing db
      = Except.ok ⟨⟨400, Body.text "SPORTSDATA_API_KEY environment variable required"⟩, db⟩
    ∧ ApiLambda.lambda_handler event env ext today failing db
      = ApiLambda.lambda_handler event env ext' today' failing' db
    ∧ (400 : Nat) ≠ 500 := by
  have h : ∀ (extx : Ext) (td : Int) (fl : Nat → Bool),
      ApiLambda.lambda_handler event env extx td fl db
      = Except.ok ⟨⟨400, Body.text "SPORTSDATA_API_KEY environment variable required"⟩,
          db⟩ := by
    intro extx td fl
    unfold ApiLambda.lambda_handler
    rw [if_neg (by rw [harn]; exact fun hc => Option.noConfusion hc), if_pos hkey]
  exact ⟨h ext today failing, (h ext today failing).trans (h ext' today' failing').symm,
    by decide⟩

/-- Witness for C4's amended statement at a concrete environment. -/
theorem c4_missing_api_key_structured_witness :
    ApiLambda.lambda_handler {} ⟨some "arn", none⟩ testExt 0 noFail DB.empty
      = Except.ok ⟨⟨400, Body.text "SPORTSDATA_API_KEY environment variable required"⟩,
          DB.empty⟩
    ∧ ApiLambda.lambda_handler {} ⟨some "arn", none⟩ testExt 0 noFail DB.empty
      = ApiLambda.lambda_handler {} ⟨some "arn", none⟩
          ⟨Except.error "down", fun _ _ => Except.error "down",
           fun _ => Except.error "down", fun _ => Except.error "down"⟩ 1 noFail DB.empty
    ∧ (400 : Nat) ≠ 500 :=
  c4_missing_api_key_structured {} "arn" ⟨some "arn", none⟩ testExt
    ⟨Except.error "down", fun _ _ => Except.error "down",
     fun _ => Except.error "down", fun _ => Except.error "down"⟩ 0 1 noFail noFail
    DB.empty rfl (Or.inl rfl)

theorem tryBlock_resolved (event : Event) (ext : Ext) (today : Int)
    (failing : Nat → Bool) (db : DB) (arn : String) (cy cw : Int)
    (hres : ApiLambda.resolveWeek event ext = Except.ok cw) :
    ApiLambda.tryBlock event ext today failing db arn cy
      = ApiLambda.afterWeek ext today failing db arn cy cw := by
  unfold ApiLambda.tryBlock
  rw [hres]

theorem afterWeek_stats (ext : Ext) (today : Int) (failing : Nat → Bool) (db : DB)
    (arn : String) (cy cw : Int) (sd : List Stat)
    (hstats : ext.statsFor cy cw = Except.ok sd) :
    ApiLambda.afterWeek ext today failing db arn cy cw
      = ApiLambda.afterStats ext today failing db arn cy cw sd := by
  unfold ApiLambda.afterWeek
  rw [hstats]

theorem afterStats_nil (ext : Ext) (today : Int) (failing : Nat → Bool) (db : DB)
    (arn : String) (cy cw : Int) :
    ApiLambda.afterStats ext today failing db arn cy cw []
      = Except.ok ⟨⟨200, Body.text "No players found from API"⟩, db⟩ := rfl

/-- C6: when the provider fetch succeeds with zero records, the
handler returns 200 with the empty-result message, the database is
returned untouched, and the secret store and database connection are
never consulted (any stubs give the same result). -/
theorem c6_empty_fetch (event : Event) (env : Env) (ext : Ext) (arn k : String)
    (today : Int) (failing : Nat → Bool) (db : DB) (cw : Int)
    (harn : env.DB_SECRET_ARN = some arn)
    (hkey : env.SPORTSDATA_API_KEY = some k) (hk : k ≠ "")
    (hres : ApiLambda.resolveWeek event ext = Except.ok cw)
    (hstats : ext.statsFor (event.year.getD 2024) cw = Except.ok []) :
    ApiLambda.lambda_handler event env ext today failing db
      = Except.ok ⟨⟨200, Body.text "No players found from API"⟩, db⟩
    ∧ ∀ (gs : String → Except String DbCreds) (cn : DbCreds → Except String Unit),
        ApiLambda.lambda_handler event env ⟨ext.currentWeek, ext.statsFor, gs, cn⟩
          today failing db
        = Except.ok ⟨⟨200, Body.text "No players found from API"⟩, db⟩ := by
  have hmain : ∀ (gs : String → Except String DbCreds)
      (cn : DbCreds → Except String Unit),
      ApiLambda.lambda_handler event env ⟨ext.currentWeek, ext.statsFor, gs, cn⟩
        today failing db
      = Except.ok ⟨⟨200, Body.text "No players found from API"⟩, db⟩ := by
    intro gs cn
    have hres2 : ApiLambda.resolveWeek event ⟨ext.currentWeek, ext.statsFor, gs, cn⟩
        = Except.ok cw := hres
    have hstats2 : (⟨ext.currentWeek, ext.statsFor, gs, cn⟩ : Ext).statsFor
        (event.year.getD 2024) cw = Except.ok [] := hstats
    unfold ApiLambda.lambda_handler
    rw [if_neg (by rw [harn]; exact fun hc => Option.noConfusion hc),
      if_neg (by
        rw [hkey]
        rintro (hc | hc)
        · exact Option.noConfusion hc
        · exact hk (Option.some.inj hc)),
      tryBlock_resolved event _ today failing db _ _ cw hres2,
      afterWeek_stats _ today failing db _ _ cw [] hstats2,
      afterStats_nil]
  exact ⟨hmain ext.getSecret ext.connect, hmain⟩

/-- Witness for C6 at a concrete empty fetch. -/
theorem c6_empty_fetch_witness :
    ApiLambda.lambda_handler ⟨some 5, none⟩ ⟨some "arn", some "k"⟩
      ⟨Except.ok (some 7), fun _ _ => Except.ok [], fun _ => Except.ok {},
       fun _ => Except.ok ()⟩ 0 noFail DB.empty
    = Except.ok ⟨⟨200, Body.text "No players found from API"⟩, DB.empty⟩ :=
  (c6_empty_fetch ⟨some 5, none⟩ ⟨some "arn", some "k"⟩
    ⟨Except.ok (some 7), fun _ _ => Except.ok [], fun _ => Except.ok {},
     fun _ => Except.ok ()⟩ "arn" "k" 0 noFail DB.empty 5 rfl rfl (by decide)
    rfl rfl).1

theorem afterStats_success (ext : Ext) (today : Int) (failing : Nat → Bool) (db : DB)
    (arn : String) (cy cw : Int) (sd : List Stat) (creds : DbCreds)
    (hne : ApiLambda.format_players sd ≠ [])
    (hsec : ext.getSecret arn = Except.ok creds)
    (hconn : ext.connect creds = Except.ok ()) :
    ApiLambda.afterStats ext today failing db arn cy cw sd
      = Except.ok ⟨⟨200, Body.summary
          ("Successfully processed "
            ++ toString (persist cw cy today failing (ApiLambda.format_players sd) db).1
            ++ " players from SportsData.io API")
          cw cy (ApiLambda.format_players sd).length "sportsdata.io"⟩,
        (persist cw cy today failing (ApiLambda.format_players sd) db).2⟩ := by
  simp only [ApiLambda.afterStats, if_neg hne, hsec, hconn]

/-- C8 counterexample: an event that supplies `week = 0` does not use
that week — Python's `if not event.get('week')` treats 0 as absent, so
the provider's current week (7 here) is fetched and reported. -/
theorem c8_zero_week_ignored :
    Except.map summaryWeek
        (ApiLambda.lambda_handler ⟨some 0, none⟩ ⟨some "arn", some "k"⟩ testExt 0 noFail
          DB.empty)
      = Except.ok (some 7)
    ∧ (7 : Int) ≠ 0 := ⟨rfl, by decide⟩

/-- C8 (amended): a supplied nonzero week is used as is; an absent (or
zero) week resolves through the provider's dedicated current-week
query, defaulting to 1 when the response lacks the field; the year
defaults to 2024 when absent; and the resolved week and year appear in
the returned success summary. -/
theorem c8_week_year_resolution (event : Event) (env : Env) (ext : Ext)
    (arn k : String) (today : Int) (failing : Nat → Bool) (db : DB)
    (cw : Int) (sd : List Stat) (creds : DbCreds)
    (harn : env.DB_SECRET_ARN = some arn)
    (hkey : env.SPORTSDATA_API_KEY = some k) (hk : k ≠ "")
    (hres : ApiLambda.resolveWeek event ext = Except.ok cw)
    (hstats : ext.statsFor (event.year.getD 2024) cw = Except.ok sd)
    (hne : ApiLambda.format_players sd ≠ [])
    (hsec : ext.getSecret arn = Except.ok creds)
    (hconn : ext.connect creds = Except.ok ()) :
    (∀ w : Int, event.week = some w → w ≠ 0 → cw = w)
    ∧ (event.week = none →
        ∀ wk : Option Int, ext.currentWeek = Except.ok wk → cw = wk.getD 1)
    ∧ (event.year = none → (event.year.getD 2024 : Int) = 2024)
    ∧ ApiLambda.lambda_handler event env ext today failing db
        = Except.ok ⟨⟨200, Body.summary
            ("Successfully processed "
              ++ toString (persist cw (event.year.getD 2024) today failing
                  (ApiLambda.format_players sd) db).1
              ++ " players from SportsData.io API")
            cw (event.year.getD 2024) (ApiLambda.format_players sd).length
            "sportsdata.io"⟩,
          (persist cw (event.year.getD 2024) today failing
            (ApiLambda.format_players sd) db).2⟩ := by
  refine ⟨?_, ?_, ?_, ?_⟩
  · intro w hw hw0
    unfold ApiLambda.resolveWeek at hres
    rw [hw, if_neg (by
      rintro (hc | hc)
      · exact Option.noConfusion hc
      · exact hw0 (Option.some.inj hc))] at hres
    injection hres with h
    exact h.symm
  · intro hw wk hcw
    unfold ApiLambda.resolveWeek at hres
    rw [hw, if_pos (Or.inl rfl), hcw] at hres
    have h2 : Except.ok (wk.getD 1) = Except.ok cw := hres
    injection h2 with h
    exact h.symm
  · intro hy
    rw [hy]
    rfl
  · have harn2 : env.DB_SECRET_ARN.getD "" = arn := by rw [harn]; rfl
    unfold ApiLambda.lambda_handler
    rw [if_neg (by rw [harn]; exact fun hc => Option.noConfusion hc),
      if_neg (by
        rw [hkey]
        rintro (hc | hc)
        · exact Option.noConfusion hc
        · exact hk (Option.some.inj hc)),
      harn2,
      tryBlock_resolved event ext today failing db arn (event.year.getD 2024) cw hres,
      afterWeek_stats ext today failing db arn (event.year.getD 2024) cw sd hstats,
      afterStats_success ext today failing db arn (event.year.getD 2024) cw sd creds
        hne hsec hconn]

/-- Witness for C8's amended statement: week 5 supplied, year absent;
the summary reports week 5 and year 2024. -/
theorem c8_week_year_resolution_witness :
    ApiLambda.lambda_handler ⟨some 5, none⟩ ⟨some "arn", some "k"⟩ testExt 0 noFail
        DB.empty
      = Except.ok ⟨⟨200, Body.summary
          ("Successfully processed "
            ++ toString (persist 5 2024 0 noFail
                (ApiLambda.format_players
                  [{ Name := some "A", Team := some "BUF", Position := some "QB" }])
                DB.empty).1
            ++ " players from SportsData.io API")
          5 2024 (ApiLambda.format_players
            [{ Name := some "A", Team := some "BUF", Position := some "QB" }]).length
          "sportsdata.io"⟩,
        (persist 5 2024 0 noFail
          (ApiLambda.format_players
            [{ Name := some "A", Team := some "BUF", Position := some "QB" }])
          DB.empty).2⟩ :=
  (c8_week_year_resolution ⟨some 5, none⟩ ⟨some "arn", some "k"⟩ testExt "arn" "k" 0
    noFail DB.empty 5
    [{ Name := some "A", Team := some "BUF", Position := some "QB" }] {} rfl rfl
    (by decide) rfl rfl (by decide) rfl rfl).2.2.2

theorem foldl_append_eq_map {α β : Type} (f : α → β) :
    ∀ (l : List α) (acc : List β),
      l.foldl (fun acc x => acc ++ [f x]) acc = acc ++ l.map f := by
  intro l
  induction l with
  | nil => intro acc; simp
  | cons a t ih =>
      intro acc
      rw [List.foldl_cons, ih, List.map_cons]
      simp

/-- C9: both normalizers are pure projections — the append loops equal
`List.map` of a per-record projection (hence one output per input, in
order, and no way to mutate the input), and the string fields default
to the empty string when missing. -/
theorem c9_normalizer_pure_projection (sd : List Stat) (week : Option Int) (year : Int) :
    SportsDataScraper.format_player_data sd week year
      = sd.map (SportsDataScraper.formatOne week year)
    ∧ (SportsDataScraper.format_player_data sd week year).length = sd.length
    ∧ ApiLambda.format_players sd
      = sd.map (fun stat => Player.mk (stat.Name.getD "") (stat.Team.getD "")
          (stat.Position.getD "") (ApiLambda.calculate_fantasy_points stat))
    ∧ (ApiLambda.format_players sd).length = sd.length
    ∧ ∀ stat : Stat, stat.Name = none → stat.Team = none → stat.Position = none →
        (SportsDataScraper.formatOne week year stat).name = ""
        ∧ (SportsDataScraper.formatOne week year stat).team = ""
        ∧ (SportsDataScraper.formatOne week year stat).position = "" := by
  have h1 : SportsDataScraper.format_player_data sd week year
      = sd.map (SportsDataScraper.formatOne week year) := by
    unfold SportsDataScraper.format_player_data
    rw [foldl_append_eq_map (SportsDataScraper.formatOne week year) sd []]
    rfl
  have h2 : ApiLambda.format_players sd
      = sd.map (fun stat => Player.mk (stat.Name.getD "") (stat.Team.getD "")
          (stat.Position.getD "") (ApiLambda.calculate_fantasy_points stat)) := by
    unfold ApiLambda.format_players
    rw [foldl_append_eq_map (fun stat => Player.mk (stat.Name.getD "")
      (stat.Team.getD "") (stat.Position.getD "")
      (ApiLambda.calculate_fantasy_points stat)) sd []]
    rfl
  refine ⟨h1, by rw [h1, List.length_map], h2, by rw [h2, List.length_map], ?_⟩
  intro stat hn ht hp
  refine ⟨?_, ?_, ?_⟩ <;> simp [SportsDataScraper.formatOne, hn, ht, hp]

/-- Witness for C9 at a one-record list with all fields missing. -/
theorem c9_normalizer_pure_projection_witness :
    SportsDataScraper.format_player_data [{}] none 2024
      = [{}].map (SportsDataScraper.formatOne none 2024) :=
  (c9_normalizer_pure_projection [{}] none 2024).1

end FFN
